import Mathlib

/-!
Shallow embedding of the tdx-formula-parse TypeScript repository
(lexer.ts, token.ts, parser.ts, ast.ts, evaluator.ts, function-registry.ts,
data.ts) and proofs about the claims of its specification.

Modelling conventions:
* JavaScript numbers are modelled as exact rationals `ℚ`.  Paths on which the
  source would manufacture `NaN` or `Infinity` (e.g. reading an array at a
  fractional index, or overflow) have no rational counterpart; they are marked
  where they occur and are outside the scope of every claim proved here.
* `null` elements of a series are `Option.none`.
* Thrown JavaScript exceptions are `Except.error` values.
* Recursive procedures of the source are given a fuel argument; the public
  wrappers supply fuel that provably dominates the number of loop iterations.
-/

namespace Tdx

/-- Token kinds, from `token.ts` (`enum TokenType`). -/
inductive TokenType where
  | LParen | RParen | Comma | Semicolon | Plus | Minus | Star | Slash
  | Colon | Gt | Lt
  | ColonAssign | GtEq | LtEq | NotEq | EqEq
  | Identifier | Number | StringLit
  | If | Then | Else | And | Or | Not
  | Newline | Illegal | Eof
deriving DecidableEq, Repr

/-- One lexical unit, from `token.ts` (`interface Token`). -/
structure Token where
  tokenType : TokenType
  lexeme : String
  line : ℕ
  column : ℕ
deriving DecidableEq, Repr

/-- Token constructor, from `token.ts` (`createToken`). -/
def createToken (tokenType : TokenType) (lexeme : String) (line column : ℕ) : Token :=
  { tokenType := tokenType, lexeme := lexeme, line := line, column := column }

/-- Character-wise upper-casing, modelling JavaScript `toUpperCase()` (and
agreeing with `String.toUpper`); defined by structural recursion over the
character list so that concrete runs reduce inside the kernel. -/
def toUpperStr (s : String) : String := ⟨s.data.map Char.toUpper⟩

/-- Keyword table lookup, from `token.ts` (`lookupKeyword`): the identifier is
upper-cased and matched against the keyword map, defaulting to `Identifier`. -/
def lookupKeyword (ident : String) : TokenType :=
  match toUpperStr ident with
  | "IF" => .If
  | "THEN" => .Then
  | "ELSE" => .Else
  | "AND" => .And
  | "OR" => .Or
  | "NOT" => .Not
  | _ => .Identifier

/-- Lexer state, from `lexer.ts` (fields `input`, `position`, `line`,
`column`).  The input string is kept as its character list. -/
structure LexerState where
  input : List Char
  position : ℕ
  line : ℕ
  column : ℕ
deriving DecidableEq, Repr

/-- The not-yet-consumed suffix of the input.  All lexing decisions depend on
the state only through this suffix. -/
def LexerState.remaining (s : LexerState) : List Char := s.input.drop s.position

/-- From `lexer.ts` `isAtEnd`. -/
def LexerState.isAtEnd (s : LexerState) : Bool := s.input.length ≤ s.position

/-- From `lexer.ts` `peek`: current character, or `'\x00'` at end of input. -/
def LexerState.peek (s : LexerState) : Char :=
  if s.isAtEnd then '\x00' else s.input.getD s.position '\x00'

/-- From `lexer.ts` `peekNext`. -/
def LexerState.peekNext (s : LexerState) : Char :=
  if s.input.length ≤ s.position + 1 then '\x00' else s.input.getD (s.position + 1) '\x00'

/-- From `lexer.ts` `advance`: returns the consumed character and the advanced
state (position and column incremented; at end of input the state is
unchanged and `'\x00'` is returned). -/
def LexerState.advance (s : LexerState) : Char × LexerState :=
  if s.isAtEnd then ('\x00', s)
  else (s.input.getD s.position '\x00',
        { s with position := s.position + 1, column := s.column + 1 })

/-- From `lexer.ts` `isDigit`. -/
def isDigit (c : Char) : Bool := '0' ≤ c ∧ c ≤ '9'

/-- From `lexer.ts` `isAlpha`: letters and underscore. -/
def isAlpha (c : Char) : Bool :=
  ('a' ≤ c ∧ c ≤ 'z') ∨ ('A' ≤ c ∧ c ≤ 'Z') ∨ c = '_'

/-- From `lexer.ts` `isAlphaNumeric`. -/
def isAlphaNumeric (c : Char) : Bool := isAlpha c ∨ isDigit c

/-- From `lexer.ts` `skipWhitespace`: skips spaces, tabs and carriage returns
(not newlines). -/
def skipWhitespace : ℕ → LexerState → LexerState
  | 0, s => s
  | fuel + 1, s =>
    if s.isAtEnd then s
    else
      if s.peek = ' ' ∨ s.peek = '\t' ∨ s.peek = '\r' then skipWhitespace fuel (s.advance).2
      else s

/-- From `lexer.ts` `skipComment`: consumes characters up to and including the
closing brace, updating the line counter on embedded newlines (the source
sets `column` to 1 and then `advance` bumps it to 2; reproduced as is). -/
def skipComment : ℕ → LexerState → LexerState
  | 0, s => s
  | fuel + 1, s =>
    if s.isAtEnd then s
    else if s.peek = '\x7d' then (s.advance).2
    else
      let s1 := if s.peek = '\n' then { s with line := s.line + 1, column := 1 } else s
      skipComment fuel (s1.advance).2

/-- From `lexer.ts` `consumeCharToken`. -/
def consumeCharToken (s : LexerState) (tokenType : TokenType) : Token × LexerState :=
  (createToken tokenType (String.singleton (s.advance).1) (s.advance).2.line s.column,
   (s.advance).2)

/-- From `lexer.ts` `handleColon`: `:=` or `:`. -/
def handleColon (s : LexerState) : Token × LexerState :=
  if s.peekNext = '=' then
    (createToken .ColonAssign
      ((String.singleton (s.advance).1).push ((s.advance).2.advance).1)
      ((s.advance).2.advance).2.line s.column, ((s.advance).2.advance).2)
  else consumeCharToken s .Colon

/-- From `lexer.ts` `handleGreater`: `>=` or `>`. -/
def handleGreater (s : LexerState) : Token × LexerState :=
  if s.peekNext = '=' then
    (createToken .GtEq
      ((String.singleton (s.advance).1).push ((s.advance).2.advance).1)
      ((s.advance).2.advance).2.line s.column, ((s.advance).2.advance).2)
  else consumeCharToken s .Gt

/-- From `lexer.ts` `handleLess`: `<=`, `<>` or `<`. -/
def handleLess (s : LexerState) : Token × LexerState :=
  if s.peekNext = '=' then
    (createToken .LtEq
      ((String.singleton (s.advance).1).push ((s.advance).2.advance).1)
      ((s.advance).2.advance).2.line s.column, ((s.advance).2.advance).2)
  else if s.peekNext = '>' then
    (createToken .NotEq
      ((String.singleton (s.advance).1).push ((s.advance).2.advance).1)
      ((s.advance).2.advance).2.line s.column, ((s.advance).2.advance).2)
  else consumeCharToken s .Lt

/-- From `lexer.ts` `handleEqual`: a `==` pair yields an `EqEq` token consuming
both characters; a lone `=` also yields an `EqEq` token (there is no separate
single-equals token kind). -/
def handleEqual (s : LexerState) : Token × LexerState :=
  if s.peekNext = '=' then
    (createToken .EqEq
      ((String.singleton (s.advance).1).push ((s.advance).2.advance).1)
      ((s.advance).2.advance).2.line s.column, ((s.advance).2.advance).2)
  else consumeCharToken s .EqEq

/-- From `lexer.ts` `handleNewline`. -/
def handleNewline (s : LexerState) : Token × LexerState :=
  (createToken .Newline (String.singleton (s.advance).1)
    ((s.advance).2.line + 1) s.column,
   { (s.advance).2 with line := (s.advance).2.line + 1, column := 1 })

/-- Digit-run helper for `readNumber` (the two `while` loops of the source). -/
def readDigits : ℕ → LexerState → String → String × LexerState
  | 0, s, acc => (acc, s)
  | fuel + 1, s, acc =>
    if ¬ s.isAtEnd ∧ isDigit s.peek then
      readDigits fuel (s.advance).2 (acc.push (s.advance).1)
    else (acc, s)

/-- From `lexer.ts` `readNumber`: one or more digits, optionally followed by a
dot and more digits. -/
def readNumber (fuel : ℕ) (s : LexerState) : Token × LexerState :=
  let r1 := readDigits fuel s ""
  let r2 :=
    if ¬ r1.2.isAtEnd ∧ r1.2.peek = '.' then
      readDigits fuel (r1.2.advance).2 (r1.1.push (r1.2.advance).1)
    else r1
  (createToken .Number r2.1 r2.2.line s.column, r2.2)

/-- Identifier-run helper for `readIdentifier` (the `while` loop). -/
def readIdentChars : ℕ → LexerState → String → String × LexerState
  | 0, s, acc => (acc, s)
  | fuel + 1, s, acc =>
    if ¬ s.isAtEnd ∧ isAlphaNumeric s.peek then
      readIdentChars fuel (s.advance).2 (acc.push (s.advance).1)
    else (acc, s)

/-- From `lexer.ts` `readIdentifier`: the collected lexeme is classified by
`lookupKeyword`. -/
def readIdentifier (fuel : ℕ) (s : LexerState) : Token × LexerState :=
  let r := readIdentChars fuel s ""
  (createToken (lookupKeyword r.1) r.1 r.2.line s.column, r.2)

/-- Body loop of `readString`: consume characters up to the closing quote,
tracking embedded newlines (the source sets `column` to 1 and then `advance`
bumps it; reproduced as is). -/
def readStringChars : ℕ → LexerState → String → String × LexerState
  | 0, s, acc => (acc, s)
  | fuel + 1, s, acc =>
    if ¬ s.isAtEnd ∧ s.peek ≠ '"' then
      let s1 := if s.peek = '\n' then { s with line := s.line + 1, column := 1 } else s
      readStringChars fuel (s1.advance).2 (acc.push (s1.advance).1)
    else (acc, s)

/-- From `lexer.ts` `readString`: an unterminated string yields an `Illegal`
token. -/
def readString (fuel : ℕ) (s : LexerState) : Token × LexerState :=
  let r := readStringChars fuel (s.advance).2 ""
  if r.2.isAtEnd then (createToken .Illegal r.1 r.2.line s.column, r.2)
  else (createToken .StringLit r.1 (r.2.advance).2.line s.column, (r.2.advance).2)

/-- The end-of-input check and `switch (char)` of `nextToken` from
`lexer.ts`, applied to the state after whitespace skipping; the comment
branch skips the comment and restarts via `recur` (instantiated with
`nextTokenF fuel` below).  An unrecognized character yields an `Illegal`
token without being consumed. -/
def nextTokenDispatch (fuel : ℕ) (recur : LexerState → Token × LexerState)
    (s : LexerState) : Token × LexerState :=
  if s.isAtEnd then (createToken .Eof "" s.line s.column, s)
  else
    if s.peek = '(' then consumeCharToken s .LParen
    else if s.peek = ')' then consumeCharToken s .RParen
    else if s.peek = ',' then consumeCharToken s .Comma
    else if s.peek = ';' then consumeCharToken s .Semicolon
    else if s.peek = '+' then consumeCharToken s .Plus
    else if s.peek = '-' then consumeCharToken s .Minus
    else if s.peek = '*' then consumeCharToken s .Star
    else if s.peek = '/' then consumeCharToken s .Slash
    else if s.peek = ':' then handleColon s
    else if s.peek = '>' then handleGreater s
    else if s.peek = '<' then handleLess s
    else if s.peek = '=' then handleEqual s
    else if s.peek = '"' then readString (fuel + 1) s
    else if s.peek = '\n' then handleNewline s
    else if s.peek = '\x7b' then recur (skipComment (fuel + 1) s)
    else if isDigit s.peek then readNumber (fuel + 1) s
    else if isAlpha s.peek then readIdentifier (fuel + 1) s
    else (createToken .Illegal (String.singleton s.peek) s.line s.column, s)

/-- Fuel-indexed body of `nextToken` from `lexer.ts`: skip whitespace, then
dispatch on the current character.  The fuel-exhaustion branch is unreachable
under the fuel supplied by the `nextToken` wrapper. -/
def nextTokenF : ℕ → LexerState → Token × LexerState
  | 0, s => (createToken .Eof "" s.line s.column, s)
  | fuel + 1, s0 =>
    nextTokenDispatch fuel (nextTokenF fuel) (skipWhitespace (fuel + 1) s0)

/-- Public `nextToken`: the fuel strictly dominates the length of the
unconsumed input, so no execution path exhausts it. -/
def nextToken (s : LexerState) : Token × LexerState :=
  nextTokenF (s.remaining.length + 1) s

/-- Kinds of the first `n` tokens produced from a state (the sentinel repeats
forever at end of input, mirroring repeated `nextToken()` calls). -/
def lexKinds : ℕ → LexerState → List TokenType
  | 0, _ => []
  | n + 1, s =>
    let (t, s') := nextToken s
    t.tokenType :: lexKinds n s'

/-- Fresh lexer over a source text, from the `Lexer` constructor. -/
def mkLexer (input : String) : LexerState :=
  { input := input.data, position := 0, line := 1, column := 1 }

/-- Collect the token stream up to (and excluding) the first `Eof`, mirroring
the parser-side `LexerIterator`, which treats `Eof` as exhaustion. -/
def tokenizeF : ℕ → LexerState → List Token
  | 0, _ => []
  | n + 1, s =>
    let (t, s') := nextToken s
    if t.tokenType = .Eof then [] else t :: tokenizeF n s'

/-- Token stream of a source text. -/
def tokenize (input : String) : List Token :=
  tokenizeF (input.length + 1) (mkLexer input)

/-- Unary operators, from `ast.ts`. -/
inductive UnaryOperator where
  | Not | Neg
deriving DecidableEq, Repr

/-- Binary operators, from `ast.ts`. -/
inductive BinaryOperator where
  | Add | Sub | Mul | Div
  | Gt | Lt | GtEq | LtEq | EqEq | NotEq
  | And | Or
deriving DecidableEq, Repr

/-- Expressions, from `ast.ts` (`type Expr`).  Numeric literals carry the
rational value obtained by `parseFloat` on the digit lexeme. -/
inductive Expr where
  | Literal (numericValue : ℚ)
  | Variable (name : String)
  | UnaryOp (operator : UnaryOperator) (operand : Expr)
  | BinaryOp (left : Expr) (operator : BinaryOperator) (right : Expr)
  | FunctionCall (name : String) (args : List Expr)
  | Grouped (expr : Expr)
deriving Repr

/-- Statements, from `ast.ts` (`type Statement`).  The first field of
`Assignment` is named `variable` in the source; that word is reserved in
Lean, so it is `varName` here. -/
inductive Statement where
  | Assignment (varName : String) (expr : Expr)
  | Output (name : Option String) (expr : Expr) (styles : List String)
deriving Repr

/-- A formula is an ordered list of statements, from `ast.ts`. -/
structure Formula where
  statements : List Statement
deriving Repr

/-- Value of a digit run read as a base-10 natural number. -/
def digitsToNat (cs : List Char) : ℕ :=
  cs.foldl (fun n c => n * 10 + (c.toNat - '0'.toNat)) 0

/-- Value of a numeric lexeme (`digits` optionally followed by `.` and more
digits) under JavaScript `parseFloat`, as an exact rational.  The lexer only
produces lexemes of this shape; other inputs are irrelevant here. -/
def parseFloatLit (s : String) : ℚ :=
  match s.data.splitOn '.' with
  | [intPart] => (digitsToNat intPart : ℚ)
  | [intPart, fracPart] =>
      (digitsToNat intPart : ℚ) + (digitsToNat fracPart : ℚ) / (10 ^ fracPart.length)
  | _ => 0

/-- Parse errors, one constructor per `throw` site of `parser.ts`.
`outOfFuel` marks fuel exhaustion of the embedding, which has no counterpart
in the source. -/
inductive ParseError where
  | unexpectedToken (tokenType : TokenType) (line column : ℕ)
  | unexpectedEndOfInput
  | expectedEnd (expected : TokenType)
  | expectedGot (expected got : TokenType) (line column : ℕ)
  | ifNeedsCommaAfterCond
  | ifNeedsCommaAfterTrue
  | invalidBinaryOperator (tokenType : TokenType)
  | outOfFuel
deriving DecidableEq, Repr

/-- From `parser.ts` `expectToken`: consume the current token when it has the
expected kind, otherwise fail. -/
def expectToken (expected : TokenType) : List Token → Except ParseError (Token × List Token)
  | [] => .error (.expectedEnd expected)
  | t :: ts =>
      if t.tokenType = expected then .ok (t, ts)
      else .error (.expectedGot expected t.tokenType t.line t.column)

/-- From `parser.ts` `getInfixBindingPower`. -/
def getInfixBindingPower (t : Token) : ℕ × ℕ :=
  match t.tokenType with
  | .Or => (1, 2)
  | .And => (3, 4)
  | .Gt | .Lt | .GtEq | .LtEq | .EqEq | .NotEq => (5, 6)
  | .Plus => (7, 8)
  | .Minus => (7, 8)
  | .Star => (9, 10)
  | .Slash => (9, 10)
  | _ => (0, 0)

/-- From `parser.ts` `getPrefixBindingPower`. -/
def getPrefixBindingPower (tokenType : TokenType) : ℕ :=
  match tokenType with
  | .Minus | .Not => 11
  | _ => 0

/-- From `parser.ts` `getBinaryOperator`. -/
def getBinaryOperator (tokenType : TokenType) : Except ParseError BinaryOperator :=
  match tokenType with
  | .Plus => .ok .Add
  | .Minus => .ok .Sub
  | .Star => .ok .Mul
  | .Slash => .ok .Div
  | .Gt => .ok .Gt
  | .Lt => .ok .Lt
  | .GtEq => .ok .GtEq
  | .LtEq => .ok .LtEq
  | .EqEq => .ok .EqEq
  | .NotEq => .ok .NotEq
  | .And => .ok .And
  | .Or => .ok .Or
  | tt => .error (.invalidBinaryOperator tt)

/-- From `parser.ts` `parseFormula`'s inner newline skip (`while` over
consecutive `Newline` tokens). -/
def skipNewlines : List Token → List Token
  | [] => []
  | t :: rest => if t.tokenType = .Newline then skipNewlines rest else t :: rest

mutual

/-- From `parser.ts` `parseExpression` (precedence climbing): a prefix
expression followed by the infix loop. -/
def parseExpression : ℕ → ℕ → List Token → Except ParseError (Expr × List Token)
  | 0, _, _ => .error .outOfFuel
  | fuel + 1, minPrecedence, ts =>
    match parsePrefix fuel ts with
    | .error e => .error e
    | .ok (left, ts1) => parseInfixLoop fuel minPrecedence left ts1

/-- The `while` loop inside `parseExpression`: as long as the lookahead is an
infix operator binding at least as tightly as `minPrecedence`, consume it,
parse the right operand at its right binding power, and fold into a
`BinaryOp`. -/
def parseInfixLoop : ℕ → ℕ → Expr → List Token → Except ParseError (Expr × List Token)
  | 0, _, _, _ => .error .outOfFuel
  | fuel + 1, minPrecedence, left, ts =>
    match ts with
    | [] => .ok (left, [])
    | t :: rest =>
      if (getInfixBindingPower t).1 = 0 ∨ (getInfixBindingPower t).1 < minPrecedence then
        .ok (left, ts)
      else
        match parseExpression fuel (getInfixBindingPower t).2 rest with
        | .error e => .error e
        | .ok (right, ts1) =>
          match getBinaryOperator t.tokenType with
          | .error e => .error e
          | .ok operator => parseInfixLoop fuel minPrecedence (.BinaryOp left operator right) ts1

/-- From `parser.ts` `parsePrefix`.  An empty stream models the source
dereferencing a null `currentToken` (a thrown `TypeError`); any token kind
outside the listed cases is rejected with `unexpectedToken`. -/
def parsePrefix : ℕ → List Token → Except ParseError (Expr × List Token)
  | 0, _ => .error .outOfFuel
  | fuel + 1, ts =>
    match ts with
    | [] => .error .unexpectedEndOfInput
    | t :: rest =>
      match t.tokenType with
      | .Number => .ok (.Literal (parseFloatLit t.lexeme), rest)
      | .If =>
        match rest.head? with
        | some t2 =>
          if t2.tokenType = .LParen then parseFunctionCall fuel t.tokenType ts
          else .ok (.Variable t.lexeme, rest)
        | none => .ok (.Variable t.lexeme, rest)
      | .Identifier =>
        match rest.head? with
        | some t2 =>
          if t2.tokenType = .LParen then parseFunctionCall fuel t.tokenType ts
          else .ok (.Variable t.lexeme, rest)
        | none => .ok (.Variable t.lexeme, rest)
      | .LParen => parseGroupedExpression fuel ts
      | .Minus => parseUnaryExpression fuel ts
      | .Not => parseUnaryExpression fuel ts
      | tt => .error (.unexpectedToken tt t.line t.column)

/-- From `parser.ts` `parseFunctionCall`: consume the name token (of the kind
the caller saw) and the opening parenthesis; a name whose upper-case form is
`IF` is diverted to `parseIfFunction`; otherwise a comma-separated argument
list of any length, including zero, is accepted. -/
def parseFunctionCall : ℕ → TokenType → List Token → Except ParseError (Expr × List Token)
  | 0, _, _ => .error .outOfFuel
  | fuel + 1, tokenType, ts =>
    match expectToken tokenType ts with
    | .error e => .error e
    | .ok (nameTok, ts1) =>
      match expectToken .LParen ts1 with
      | .error e => .error e
      | .ok (_, ts2) =>
        if toUpperStr nameTok.lexeme = "IF" then parseIfFunction fuel nameTok ts2
        else
          match ts2.head? with
          | some t =>
            if t.tokenType = .RParen then
              match expectToken .RParen ts2 with
              | .error e => .error e
              | .ok (_, ts3) => .ok (.FunctionCall nameTok.lexeme [], ts3)
            else
              match parseExpression fuel 0 ts2 with
              | .error e => .error e
              | .ok (first, ts3) =>
                match parseArgsLoop fuel [first] ts3 with
                | .error e => .error e
                | .ok (args, ts4) =>
                  match expectToken .RParen ts4 with
                  | .error e => .error e
                  | .ok (_, ts5) => .ok (.FunctionCall nameTok.lexeme args, ts5)
          | none =>
            match parseExpression fuel 0 ts2 with
            | .error e => .error e
            | .ok (first, ts3) =>
              match parseArgsLoop fuel [first] ts3 with
              | .error e => .error e
              | .ok (args, ts4) =>
                match expectToken .RParen ts4 with
                | .error e => .error e
                | .ok (_, ts5) => .ok (.FunctionCall nameTok.lexeme args, ts5)

/-- The `while (comma)` argument loop inside `parseFunctionCall`. -/
def parseArgsLoop : ℕ → List Expr → List Token → Except ParseError (List Expr × List Token)
  | 0, _, _ => .error .outOfFuel
  | fuel + 1, args, ts =>
    match ts with
    | t :: rest =>
      if t.tokenType = .Comma then
        match parseExpression fuel 0 rest with
        | .error e => .error e
        | .ok (e, ts1) => parseArgsLoop fuel (args ++ [e]) ts1
      else .ok (args, ts)
    | [] => .ok (args, [])

/-- From `parser.ts` `parseIfFunction`: exactly three comma-separated
arguments, with a dedicated error at each missing comma; the produced call is
named with the literal `IF`. -/
def parseIfFunction : ℕ → Token → List Token → Except ParseError (Expr × List Token)
  | 0, _, _ => .error .outOfFuel
  | fuel + 1, _, ts =>
    match parseExpression fuel 0 ts with
    | .error e => .error e
    | .ok (cond, ts1) =>
      match ts1.head? with
      | some t =>
        if t.tokenType = .Comma then
          match parseExpression fuel 0 ts1.tail with
          | .error e => .error e
          | .ok (trueVal, ts2) =>
            match ts2.head? with
            | some t2 =>
              if t2.tokenType = .Comma then
                match parseExpression fuel 0 ts2.tail with
                | .error e => .error e
                | .ok (falseVal, ts3) =>
                  match expectToken .RParen ts3 with
                  | .error e => .error e
                  | .ok (_, ts4) => .ok (.FunctionCall "IF" [cond, trueVal, falseVal], ts4)
              else .error .ifNeedsCommaAfterTrue
            | none => .error .ifNeedsCommaAfterTrue
        else .error .ifNeedsCommaAfterCond
      | none => .error .ifNeedsCommaAfterCond

/-- From `parser.ts` `parseGroupedExpression`. -/
def parseGroupedExpression : ℕ → List Token → Except ParseError (Expr × List Token)
  | 0, _ => .error .outOfFuel
  | fuel + 1, ts =>
    match expectToken .LParen ts with
    | .error e => .error e
    | .ok (_, ts1) =>
      match parseExpression fuel 0 ts1 with
      | .error e => .error e
      | .ok (e, ts2) =>
        match expectToken .RParen ts2 with
        | .error e => .error e
        | .ok (_, ts3) => .ok (.Grouped e, ts3)

/-- From `parser.ts` `parseUnaryExpression`: `Minus` maps to `Neg`, anything
else (only `Not` reaches here) to `Not`; the operand is parsed at the prefix
binding power. -/
def parseUnaryExpression : ℕ → List Token → Except ParseError (Expr × List Token)
  | 0, _ => .error .outOfFuel
  | fuel + 1, ts =>
    match ts with
    | [] => .error .unexpectedEndOfInput
    | t :: rest =>
      let operator := if t.tokenType = .Minus then UnaryOperator.Neg else UnaryOperator.Not
      match parseExpression fuel (getPrefixBindingPower t.tokenType) rest with
      | .error e => .error e
      | .ok (operand, ts1) => .ok (.UnaryOp operator operand, ts1)

/-- From `parser.ts` `parsePlotStyles`: a possibly empty run of
`, identifier` pairs. -/
def parsePlotStyles : ℕ → List String → List Token → Except ParseError (List String × List Token)
  | 0, _, _ => .error .outOfFuel
  | fuel + 1, styles, ts =>
    match ts with
    | t :: rest =>
      if t.tokenType = .Comma then
        match expectToken .Identifier rest with
        | .error e => .error e
        | .ok (styleTok, ts1) => parsePlotStyles fuel (styles ++ [styleTok.lexeme]) ts1
      else .ok (styles, ts)
    | [] => .ok (styles, [])

/-- From `parser.ts` `parseAssignmentStatement`: `IDENT := expr`. -/
def parseAssignmentStatement : ℕ → List Token → Except ParseError (Statement × List Token)
  | 0, _ => .error .outOfFuel
  | fuel + 1, ts =>
    match expectToken .Identifier ts with
    | .error e => .error e
    | .ok (varTok, ts1) =>
      match expectToken .ColonAssign ts1 with
      | .error e => .error e
      | .ok (_, ts2) =>
        match parseExpression fuel 0 ts2 with
        | .error e => .error e
        | .ok (e, ts3) => .ok (.Assignment varTok.lexeme e, ts3)

/-- From `parser.ts` `parseNamedOutputStatement`: `IDENT : expr [, style]*`. -/
def parseNamedOutputStatement : ℕ → List Token → Except ParseError (Statement × List Token)
  | 0, _ => .error .outOfFuel
  | fuel + 1, ts =>
    match expectToken .Identifier ts with
    | .error e => .error e
    | .ok (name, ts1) =>
      match expectToken .Colon ts1 with
      | .error e => .error e
      | .ok (_, ts2) =>
        match parseExpression fuel 0 ts2 with
        | .error e => .error e
        | .ok (e, ts3) =>
          match parsePlotStyles fuel [] ts3 with
          | .error e => .error e
          | .ok (styles, ts4) => .ok (.Output (some name.lexeme) e styles, ts4)

/-- From `parser.ts` `parseAnonymousOutputStatement`: `expr [, style]*`. -/
def parseAnonymousOutputStatement : ℕ → List Token → Except ParseError (Statement × List Token)
  | 0, _ => .error .outOfFuel
  | fuel + 1, ts =>
    match parseExpression fuel 0 ts with
    | .error e => .error e
    | .ok (e, ts1) =>
      match parsePlotStyles fuel [] ts1 with
      | .error e => .error e
      | .ok (styles, ts2) => .ok (.Output none e styles, ts2)

/-- From `parser.ts` `parseStatement`: dispatch on one token of lookahead
(`IDENT :=` assignment, `IDENT :` named output, anything else anonymous
output). -/
def parseStatement : ℕ → List Token → Except ParseError (Statement × List Token)
  | 0, _ => .error .outOfFuel
  | fuel + 1, ts =>
    match ts with
    | t :: rest =>
      if t.tokenType = .Identifier then
        match rest.head? with
        | some t2 =>
          if t2.tokenType = .ColonAssign then parseAssignmentStatement fuel ts
          else if t2.tokenType = .Colon then parseNamedOutputStatement fuel ts
          else parseAnonymousOutputStatement fuel ts
        | none => parseAnonymousOutputStatement fuel ts
      else parseAnonymousOutputStatement fuel ts
    | [] => parseAnonymousOutputStatement fuel []

/-- The top-level loop of `parseFormula`: skip blank lines, stop at stream
end, parse one statement, optionally consume one trailing newline. -/
def parseFormulaLoop : ℕ → List Statement → List Token → Except ParseError (List Statement)
  | 0, _, _ => .error .outOfFuel
  | fuel + 1, statements, ts =>
    let ts1 := skipNewlines ts
    match ts1 with
    | [] => .ok statements
    | _ :: _ =>
      match parseStatement fuel ts1 with
      | .error e => .error e
      | .ok (st, ts2) =>
        let ts3 :=
          match ts2 with
          | t :: rest => if t.tokenType = .Newline then rest else ts2
          | [] => []
        parseFormulaLoop fuel (statements ++ [st]) ts3

end

/-- From `parser.ts` `parseFormula`: the token stream is the lexer output with
the `Eof` sentinel stripped (the `LexerIterator` converts it to stream
exhaustion). -/
def parseFormula (fuel : ℕ) (ts : List Token) : Except ParseError Formula :=
  match parseFormulaLoop fuel [] ts with
  | .error e => .error e
  | .ok statements => .ok ⟨statements⟩

/-- End-to-end parse of a source text, from `createParser` + `parseFormula`.
The fuel bound comfortably dominates the recursion depth: every ten units of
fuel the parser consumes at least one token or returns. -/
def parseText (input : String) : Except ParseError Formula :=
  let ts := tokenize input
  parseFormula (10 * ts.length + 10) ts

/-- One element of a series: a number or null. -/
abbrev Value := Option ℚ

/-- A nullable numeric series (`(number | null)[]`). -/
abbrev Series := List Value

/-- Evaluation-time errors, one constructor per `throw` site of
`evaluator.ts` and `function-registry.ts`.  `missingArgument` models the
`TypeError` raised when a destructured builtin argument is `undefined`;
`nonRationalValue` marks paths on which the source would read an array at a
fractional index and go on to compute with `undefined`/`NaN`, which has no
rational counterpart (no claim exercises such a path). -/
inductive EvalError where
  | binaryLengthMismatch
  | undefinedVariable (name : String)
  | functionArgLength (name : String)
  | unknownFunction (name : String)
  | missingNumericArgument
  | nullNumericArgument
  | refNegativeOffset
  | missingArgument
  | nonRationalValue
deriving DecidableEq, Repr

/-- Vectorized builtin signature, from `function-registry.ts`
(`type FunctionType`). -/
abbrev FunctionType := List Series → Except EvalError Series

/-- From `function-registry.ts` / `evaluator.ts` `getNumberArg`: the scalar of
a period-style argument is the first element of its series; a missing or null
first element is a fatal argument error. -/
def getNumberArg (argValues : Series) : Except EvalError ℚ :=
  match argValues with
  | [] => .error .missingNumericArgument
  | firstValue :: _ =>
    match firstValue with
    | none => .error .nullNumericArgument
    | some x => .ok x

/-- Array read at an integer index, as `data[j]` in the builtin loops.  A
negative index would be `undefined` in JavaScript; every executed read below
is provably in range, so out-of-range reads are rendered as null. -/
def jsGet (data : Series) (j : ℤ) : Value :=
  if 0 ≤ j then data.getD j.toNat none else none

/-- The integer list `[lo, lo+1, ..., hi]` (empty when `hi < lo`), the index
range of the `for (let j = lo; j <= hi; j++)` window loops. -/
def intRange (lo hi : ℤ) : List ℤ :=
  (List.range (hi + 1 - lo).toNat).map (fun (k : ℕ) => lo + (k : ℤ))

/-- The `sum`/`count` accumulation of MA's inner window loop: add every
non-null `data[j]`, counting the additions. -/
def windowSumCount (data : Series) (js : List ℤ) : ℚ × ℕ :=
  js.foldl
    (fun sc j =>
      match jsGet data j with
      | some v => (sc.1 + v, sc.2 + 1)
      | none => sc)
    (0, 0)

/-- Core loop of the `MA` builtin from `function-registry.ts`, for an integer
period `p`: indices before `p - 1` are null, every later index averages the
non-null values of the trailing window of `p` elements, and is null when the
window has no non-null value. -/
def maInt (data : Series) (p : ℤ) : Series :=
  (List.range data.length).map (fun (i : ℕ) =>
    if (i : ℤ) < p - 1 then none
    else
      if 0 < (windowSumCount data (intRange ((i : ℤ) + 1 - p) (i : ℤ))).2 then
        some ((windowSumCount data (intRange ((i : ℤ) + 1 - p) (i : ℤ))).1 /
          ((windowSumCount data (intRange ((i : ℤ) + 1 - p) (i : ℤ))).2 : ℚ))
      else none)

/-- The `MA` builtin from `function-registry.ts`.  A fractional period makes
the source walk fractional array indices and accumulate `undefined` into
`NaN`; that region is outside the rational embedding and is mapped to
`nonRationalValue`. -/
def MA : FunctionType := fun args =>
  match args with
  | data :: periodArg :: _ =>
    match getNumberArg periodArg with
    | .error e => .error e
    | .ok period =>
      if period.den = 1 then .ok (maInt data period.num)
      else .error .nonRationalValue
  | _ => .error .missingArgument

/-- The `REF` builtin from `function-registry.ts`: a negative offset is a
fatal argument error; otherwise `result[i] = data[i - offset]` when the
shifted index is in range and null before that.  A fractional offset would
make the source emit `undefined` elements (outside the rational embedding,
mapped to `nonRationalValue`). -/
def REF : FunctionType := fun args =>
  match args with
  | data :: offsetArg :: _ =>
    match getNumberArg offsetArg with
    | .error e => .error e
    | .ok offset =>
      if offset < 0 then .error .refNegativeOffset
      else if offset.den = 1 then
        .ok ((List.range data.length).map (fun (i : ℕ) =>
          if 0 ≤ (i : ℤ) - offset.num then jsGet data ((i : ℤ) - offset.num) else none))
      else .error .nonRationalValue
  | _ => .error .missingArgument

/-- The `SUM` builtin from `function-registry.ts`: trailing window sum of the
non-null values, null before `period - 1` and null when the window has no
valid value. -/
def SUM : FunctionType := fun args =>
  match args with
  | data :: periodArg :: _ =>
    match getNumberArg periodArg with
    | .error e => .error e
    | .ok period =>
      if period.den = 1 then
        .ok ((List.range data.length).map (fun (i : ℕ) =>
          if (i : ℤ) < period.num - 1 then none
          else
            let sc := windowSumCount data (intRange ((i : ℤ) + 1 - period.num) (i : ℤ))
            if 0 < sc.2 then some sc.1 else none))
      else .error .nonRationalValue
  | _ => .error .missingArgument

/-- Maximum accumulation of HHV's window loop (`maxVal` starts null). -/
def windowMax (data : Series) (js : List ℤ) : Value :=
  js.foldl
    (fun acc j =>
      match jsGet data j with
      | some v =>
        match acc with
        | none => some v
        | some m => if v > m then some v else some m
      | none => acc)
    none

/-- Minimum accumulation of LLV's window loop (`minVal` starts null). -/
def windowMin (data : Series) (js : List ℤ) : Value :=
  js.foldl
    (fun acc j =>
      match jsGet data j with
      | some v =>
        match acc with
        | none => some v
        | some m => if v < m then some v else some m
      | none => acc)
    none

/-- The `HHV` builtin from `function-registry.ts`. -/
def HHV : FunctionType := fun args =>
  match args with
  | data :: periodArg :: _ =>
    match getNumberArg periodArg with
    | .error e => .error e
    | .ok period =>
      if period.den = 1 then
        .ok ((List.range data.length).map (fun (i : ℕ) =>
          if (i : ℤ) < period.num - 1 then none
          else windowMax data (intRange ((i : ℤ) + 1 - period.num) (i : ℤ))))
      else .error .nonRationalValue
  | _ => .error .missingArgument

/-- The `LLV` builtin from `function-registry.ts`. -/
def LLV : FunctionType := fun args =>
  match args with
  | data :: periodArg :: _ =>
    match getNumberArg periodArg with
    | .error e => .error e
    | .ok period =>
      if period.den = 1 then
        .ok ((List.range data.length).map (fun (i : ℕ) =>
          if (i : ℤ) < period.num - 1 then none
          else windowMin data (intRange ((i : ℤ) + 1 - period.num) (i : ℤ))))
      else .error .nonRationalValue
  | _ => .error .missingArgument

/-- The `IF` builtin from `function-registry.ts`: elementwise select with
strict null propagation over condition and both branches.  Like the source's
`condition.map`, the result length follows the condition series; the
evaluator has already forced all argument lengths equal. -/
def IF : FunctionType := fun args =>
  match args with
  | condition :: trueValue :: falseValue :: _ =>
    .ok ((List.range condition.length).map (fun (i : ℕ) =>
      match condition.getD i none, trueValue.getD i none, falseValue.getD i none with
      | some cond, some t, some f => some (if cond ≠ 0 then t else f)
      | _, _, _ => none))
  | _ => .error .missingArgument

/-- The `CROSS` builtin from `function-registry.ts`: upward cross detection;
index 0 or any null among the four inspected values yields 0 (never null),
and otherwise the element is 1 exactly when `a` was strictly below `b` at the
previous index and strictly above at the current one. -/
def CROSS : FunctionType := fun args =>
  match args with
  | a :: b :: _ =>
    .ok ((List.range a.length).map (fun (i : ℕ) =>
      if i = 0 then some 0
      else
        match a.getD i none, b.getD i none, a.getD (i - 1) none, b.getD (i - 1) none with
        | some ai, some bi, some ai1, some bi1 =>
          if ai1 < bi1 ∧ ai > bi then some 1 else some 0
        | _, _, _, _ => some 0))
  | _ => .error .missingArgument

/-- The `ABS` builtin from `function-registry.ts`. -/
def ABS : FunctionType := fun args =>
  match args with
  | data :: _ => .ok (data.map (fun value =>
      match value with
      | none => none
      | some v => some |v|))
  | _ => .error .missingArgument

/-- The `MAX` builtin from `function-registry.ts`: elementwise maximum, null
when either side is null. -/
def MAX : FunctionType := fun args =>
  match args with
  | a :: b :: _ =>
    .ok ((List.range a.length).map (fun (i : ℕ) =>
      match a.getD i none, b.getD i none with
      | some valA, some valB => some (max valA valB)
      | _, _ => none))
  | _ => .error .missingArgument

/-- The `MIN` builtin from `function-registry.ts`. -/
def MIN : FunctionType := fun args =>
  match args with
  | a :: b :: _ =>
    .ok ((List.range a.length).map (fun (i : ℕ) =>
      match a.getD i none, b.getD i none with
      | some valA, some valB => some (min valA valB)
      | _, _ => none))
  | _ => .error .missingArgument

/-- The `COUNT` builtin from `function-registry.ts`: trailing count of
non-null, nonzero condition elements. -/
def COUNT : FunctionType := fun args =>
  match args with
  | condition :: periodArg :: _ =>
    match getNumberArg periodArg with
    | .error e => .error e
    | .ok period =>
      if period.den = 1 then
        .ok ((List.range condition.length).map (fun (i : ℕ) =>
          if (i : ℤ) < period.num - 1 then none
          else
            some ((((intRange ((i : ℤ) + 1 - period.num) (i : ℤ)).filter
              (fun j => match jsGet condition j with
                | some v => v ≠ 0
                | none => false)).length : ℕ) : ℚ)))
      else .error .nonRationalValue
  | _ => .error .missingArgument

/-- Case-insensitive builtin lookup, from `DefaultFunctionRegistry`
(`getFunction` upper-cases the name; `initializeBuiltinFunctions` registers
the names below).  The source also registers `STD` and `CV`; their results
involve `Math.sqrt` and therefore leave the rational embedding, and no claim
concerns them, so they are not modelled. -/
def getFunction (name : String) : Option FunctionType :=
  match toUpperStr name with
  | "MA" => some MA
  | "REF" => some REF
  | "SUM" => some SUM
  | "HHV" => some HHV
  | "LLV" => some LLV
  | "IF" => some IF
  | "CROSS" => some CROSS
  | "ABS" => some ABS
  | "MAX" => some MAX
  | "MIN" => some MIN
  | "COUNT" => some COUNT
  | _ => none

/-- Input bar data, from `data.ts` (`interface InputData`). -/
structure InputData where
  opens : Series
  highs : Series
  lows : Series
  closes : Series
  volumes : Series
  numBars : ℕ
deriving DecidableEq, Repr

/-- One reported output line, from `data.ts` (`interface OutputLineResult`). -/
structure OutputLineResult where
  name : String
  data : Series
  styles : List String
deriving DecidableEq, Repr

/-- Evaluation result, from `data.ts` (`interface FormulaResult`). -/
structure FormulaResult where
  outputLines : List OutputLineResult
deriving DecidableEq, Repr

/-- The environment: name-to-series bindings, modelling the evaluator's
JavaScript `Map` as an insertion-ordered association list. -/
abbrev Environment := List (String × Series)

/-- `Map.set`: overwrite an existing binding in place or append a new one. -/
def envSet : Environment → String → Series → Environment
  | [], k, v => [(k, v)]
  | (k', v') :: rest, k, v =>
    if k' = k then (k, v) :: rest else (k', v') :: envSet rest k v

/-- `Map.get`. -/
def envGet : Environment → String → Option Series
  | [], _ => none
  | (k', v') :: rest, k => if k' = k then some v' else envGet rest k

/-- Evaluator instance state, from `evaluator.ts` (fields `inputData`,
`environment`, `outputLines`; the function registry is passed explicitly to
the functions below rather than being stored). -/
structure EvaluatorState where
  inputData : InputData
  environment : Environment
  outputLines : List OutputLineResult
deriving DecidableEq, Repr

/-- The `Evaluator` constructor with `initializeBuiltinVariables`: a fresh
environment seeded with the builtin `O`/`H`/`L`/`C`/`V` series and an empty
output accumulator. -/
def mkEvaluator (inputData : InputData) : EvaluatorState :=
  { inputData := inputData,
    environment :=
      envSet (envSet (envSet (envSet (envSet [] "O" inputData.opens)
        "H" inputData.highs) "L" inputData.lows) "C" inputData.closes) "V" inputData.volumes,
    outputLines := [] }

/-- Elementwise application of a binary operator to two non-null operands,
the `switch (operator)` of `evaluateBinaryOp` in `evaluator.ts`.  Division by
zero yields null; comparisons and logical operators yield exactly 1 or 0. -/
def applyBinaryOp (operator : BinaryOperator) (leftVal rightVal : ℚ) : Value :=
  match operator with
  | .Add => some (leftVal + rightVal)
  | .Sub => some (leftVal - rightVal)
  | .Mul => some (leftVal * rightVal)
  | .Div => if rightVal = 0 then none else some (leftVal / rightVal)
  | .Gt => some (if leftVal > rightVal then 1 else 0)
  | .Lt => some (if leftVal < rightVal then 1 else 0)
  | .GtEq => some (if leftVal ≥ rightVal then 1 else 0)
  | .LtEq => some (if leftVal ≤ rightVal then 1 else 0)
  | .EqEq => some (if leftVal = rightVal then 1 else 0)
  | .NotEq => some (if leftVal ≠ rightVal then 1 else 0)
  | .And => some (if leftVal ≠ 0 ∧ rightVal ≠ 0 then 1 else 0)
  | .Or => some (if leftVal ≠ 0 ∨ rightVal ≠ 0 then 1 else 0)

/-- Series-level body of `evaluateBinaryOp` from `evaluator.ts`, after both
operands have been evaluated: require equal lengths, then map elementwise
with null propagation. -/
def binaryOpSeries (operator : BinaryOperator) (leftValue rightValue : Series) :
    Except EvalError Series :=
  if leftValue.length ≠ rightValue.length then .error .binaryLengthMismatch
  else
    .ok ((leftValue.zip rightValue).map (fun lr =>
      match lr.1, lr.2 with
      | some leftVal, some rightVal => applyBinaryOp operator leftVal rightVal
      | _, _ => none))

mutual

/-- From `evaluator.ts` `evaluateExpr`: pure recursive evaluation of an
expression against an environment, resolving function calls through the
registry `reg`.  `numBars` is the input length used to broadcast literals. -/
def evaluateExpr (reg : String → Option FunctionType) (numBars : ℕ)
    (env : Environment) : Expr → Except EvalError Series
  | .Literal v => .ok (List.replicate numBars (some v))
  | .Variable name =>
    match envGet env name with
    | some value => .ok value
    | none => .error (.undefinedVariable name)
  | .UnaryOp operator operand =>
    match evaluateExpr reg numBars env operand with
    | .error e => .error e
    | .ok operandValue =>
      .ok (operandValue.map (fun value =>
        match value with
        | none => none
        | some v =>
          match operator with
          | .Neg => some (-v)
          | .Not => some (if v = 0 then 1 else 0)))
  | .BinaryOp left operator right =>
    match evaluateExpr reg numBars env left with
    | .error e => .error e
    | .ok leftValue =>
      match evaluateExpr reg numBars env right with
      | .error e => .error e
      | .ok rightValue => binaryOpSeries operator leftValue rightValue
  | .FunctionCall name args =>
    match evaluateExprList reg numBars env args with
    | .error e => .error e
    | .ok argValues =>
      let length := ((argValues.head?.map List.length).getD 0)
      if argValues.all (fun argValue => argValue.length = length) then
        match reg name with
        | none => .error (.unknownFunction name)
        | some f => f argValues
      else .error (.functionArgLength name)
  | .Grouped e => evaluateExpr reg numBars env e

/-- Evaluation of an argument list in order (`args.map(...)`). -/
def evaluateExprList (reg : String → Option FunctionType) (numBars : ℕ)
    (env : Environment) : List Expr → Except EvalError (List Series)
  | [] => .ok []
  | e :: es =>
    match evaluateExpr reg numBars env e with
    | .error err => .error err
    | .ok v =>
      match evaluateExprList reg numBars env es with
      | .error err => .error err
      | .ok vs => .ok (v :: vs)

end

/-- The statement loop of `evaluateFormula` with `executeStatement` /
`executeAssignment` / `executeOutput` from `evaluator.ts`: assignments bind
into the environment (overwriting, builtins included); outputs append a line
named either by the statement or as `output_<k>` for the `k`-th accumulated
line (an empty name string is falsy in the source and also auto-names). -/
def evalStatements (reg : String → Option FunctionType) (numBars : ℕ) :
    List Statement → Environment → List OutputLineResult →
    Except EvalError (Environment × List OutputLineResult)
  | [], env, outputLines => .ok (env, outputLines)
  | statement :: rest, env, outputLines =>
    match statement with
    | .Assignment varName expr =>
      match evaluateExpr reg numBars env expr with
      | .error e => .error e
      | .ok value => evalStatements reg numBars rest (envSet env varName value) outputLines
    | .Output name expr styles =>
      match evaluateExpr reg numBars env expr with
      | .error e => .error e
      | .ok data =>
        let nm :=
          match name with
          | some n => if n.isEmpty then "output_" ++ toString (outputLines.length + 1) else n
          | none => "output_" ++ toString (outputLines.length + 1)
        evalStatements reg numBars rest env
          (outputLines ++ [{ name := nm, data := data, styles := styles }])

/-- From `evaluator.ts` `evaluateFormula`: the output accumulator is reset to
empty at the start of every call, while the environment field carries over
from the instance state; on success the instance state holds the final
environment and output lines.  (When the source throws mid-formula the
JavaScript instance keeps partial mutations; every claim here concerns
completed calls, so errors carry no state.) -/
def evaluateFormula (reg : String → Option FunctionType) (s : EvaluatorState)
    (formula : Formula) : Except EvalError (FormulaResult × EvaluatorState) :=
  match evalStatements reg s.inputData.numBars formula.statements s.environment [] with
  | .error e => .error e
  | .ok (env', outputLines') =>
    .ok (⟨outputLines'⟩,
      { s with environment := env', outputLines := outputLines' })

/-! ### Generic indexing helpers -/

instance {ε α : Type} [DecidableEq ε] [DecidableEq α] : DecidableEq (Except ε α) := fun
  | .error e, .error e' =>
    if h : e = e' then .isTrue (by rw [h]) else .isFalse (by simp [h])
  | .error _, .ok _ => .isFalse (by simp)
  | .ok _, .error _ => .isFalse (by simp)
  | .ok a, .ok b =>
    if h : a = b then .isTrue (by rw [h]) else .isFalse (by simp [h])

lemma getD_range_map (f : ℕ → Value) (L i : ℕ) :
    (((List.range L).map f).getD i none) = if i < L then f i else none := by
  rcases lt_or_le i L with h | h
  · simp [List.getD_eq_getElem?_getD, List.getElem?_range h, h]
  · have hnone : ((List.range L).map f)[i]? = none :=
      List.getElem?_eq_none (by simpa using h)
    simp [List.getD_eq_getElem?_getD, hnone, h.not_lt]

lemma getD_zip_map (g : Value × Value → Value) (lv rv : Series) (i : ℕ)
    (hlen : lv.length = rv.length) (hi : i < lv.length) :
    ((lv.zip rv).map g).getD i none = g (lv.getD i none, rv.getD i none) := by
  have hi' : i < rv.length := hlen ▸ hi
  have h1 : lv[i]? = some lv[i] := List.getElem?_eq_getElem hi
  have h2 : rv[i]? = some rv[i] := List.getElem?_eq_getElem hi'
  have hz : (lv.zip rv)[i]? = some (lv[i], rv[i]) :=
    List.getElem?_zip_eq_some.mpr ⟨h1, h2⟩
  simp [List.getD_eq_getElem?_getD, hz, h1, h2]

/-! ### Claims C2 and C3: binary operator evaluation -/

/-- C3: evaluating a `BinaryOp` whose operands evaluated to series of
different lengths fails with the arity-mismatch error; with equal lengths the
result is elementwise — null wherever either operand is null, exactly 1 or 0
for the six comparison operators, and for `And`/`Or` the boolean (nonzero =
true) combination rendered as 1 or 0. -/
theorem evaluateBinaryOp_elementwise
    (reg : String → Option FunctionType) (numBars : ℕ) (env : Environment)
    (l r : Expr) (op : BinaryOperator) (lv rv : Series)
    (h1 : evaluateExpr reg numBars env l = .ok lv)
    (h2 : evaluateExpr reg numBars env r = .ok rv) :
    (lv.length ≠ rv.length →
      evaluateExpr reg numBars env (.BinaryOp l op r) = .error .binaryLengthMismatch) ∧
    (lv.length = rv.length →
      ∃ res, evaluateExpr reg numBars env (.BinaryOp l op r) = .ok res ∧
        res.length = lv.length ∧
        ∀ i, i < lv.length →
          ((lv.getD i none = none ∨ rv.getD i none = none) → res.getD i none = none) ∧
          (∀ x y, lv.getD i none = some x → rv.getD i none = some y →
            ((op = .Gt ∨ op = .Lt ∨ op = .GtEq ∨ op = .LtEq ∨ op = .EqEq ∨ op = .NotEq) →
              res.getD i none = some 1 ∨ res.getD i none = some 0) ∧
            (op = .And → res.getD i none = some (if x ≠ 0 ∧ y ≠ 0 then 1 else 0)) ∧
            (op = .Or → res.getD i none = some (if x ≠ 0 ∨ y ≠ 0 then 1 else 0)))) := by
  have hbin : evaluateExpr reg numBars env (.BinaryOp l op r) = binaryOpSeries op lv rv := by
    simp only [evaluateExpr, h1, h2]
  constructor
  · intro hne
    rw [hbin, binaryOpSeries, if_pos hne]
  · intro hlen
    refine ⟨(lv.zip rv).map (fun lr =>
      match lr.1, lr.2 with
      | some leftVal, some rightVal => applyBinaryOp op leftVal rightVal
      | _, _ => none), ?_, ?_, ?_⟩
    · rw [hbin, binaryOpSeries, if_neg (by simp [hlen])]
    · simp [List.length_zip, hlen]
    · intro i hi
      have hset := getD_zip_map (fun lr =>
        match lr.1, lr.2 with
        | some leftVal, some rightVal => applyBinaryOp op leftVal rightVal
        | _, _ => none) lv rv i hlen hi
      constructor
      · intro hnull
        rw [hset]
        rcases hx : lv.getD i none with _ | x
        · rcases hy : rv.getD i none with _ | y <;> rfl
        · rcases hy : rv.getD i none with _ | y
          · rfl
          · rcases hnull with h | h <;> simp_all
      · intro x y hx hy
        rw [hset, hx, hy]
        refine ⟨?_, ?_, ?_⟩
        · rintro (rfl | rfl | rfl | rfl | rfl | rfl) <;>
            simp only [applyBinaryOp] <;> split <;> simp
        · rintro rfl; simp [applyBinaryOp]
        · rintro rfl; simp [applyBinaryOp]

/-- C2: with equal-length operand series, a `Div` evaluation succeeds, and at
every index where both operands are numbers and the divisor is 0 the result
element is null — in this embedding a null is produced instead of a thrown
error or an infinite value. -/
theorem evaluateDiv_zero_yields_null
    (reg : String → Option FunctionType) (numBars : ℕ) (env : Environment)
    (l r : Expr) (lv rv : Series)
    (h1 : evaluateExpr reg numBars env l = .ok lv)
    (h2 : evaluateExpr reg numBars env r = .ok rv)
    (hlen : lv.length = rv.length) :
    ∃ res, evaluateExpr reg numBars env (.BinaryOp l .Div r) = .ok res ∧
      ∀ i x, i < lv.length → lv.getD i none = some x → rv.getD i none = some 0 →
        res.getD i none = none := by
  have hbin : evaluateExpr reg numBars env (.BinaryOp l .Div r) = binaryOpSeries .Div lv rv := by
    simp only [evaluateExpr, h1, h2]
  refine ⟨(lv.zip rv).map (fun lr =>
      match lr.1, lr.2 with
      | some leftVal, some rightVal => applyBinaryOp .Div leftVal rightVal
      | _, _ => none), ?_, ?_⟩
  · rw [hbin, binaryOpSeries, if_neg (by simp [hlen])]
  · intro i x hi hx hy
    rw [getD_zip_map _ lv rv i hlen hi, hx, hy]
    simp [applyBinaryOp]

/-- Witness for the binary-operator theorem at concrete inputs: mismatched
operand lengths error out, matched ones succeed. -/
theorem evaluateBinaryOp_elementwise_witness :
    evaluateExpr getFunction 2 [("A", [some 1, none]), ("B", [some 3])]
      (.BinaryOp (.Variable "A") .Gt (.Variable "B")) = .error .binaryLengthMismatch ∧
    ∃ res, evaluateExpr getFunction 2 [("A", [some 1, none])]
        (.BinaryOp (.Variable "A") .Lt (.Literal 3)) = .ok res ∧ res.length = 2 := by
  constructor
  · exact (evaluateBinaryOp_elementwise getFunction 2
      [("A", [some 1, none]), ("B", [some 3])] (.Variable "A") (.Variable "B") .Gt
      [some 1, none] [some 3] (by decide) (by decide)).1 (by decide)
  · obtain ⟨res, hok, hlen, -⟩ := (evaluateBinaryOp_elementwise getFunction 2
      [("A", [some 1, none])] (.Variable "A") (.Literal 3) .Lt
      [some 1, none] [some 3, some 3] (by decide) (by decide)).2 (by decide)
    exact ⟨res, hok, hlen⟩

/-- Witness for the division-by-zero theorem: `[4, 5] / [2, 0]` succeeds and
its element at the zero divisor is null. -/
theorem evaluateDiv_zero_witness :
    ∃ res, evaluateExpr getFunction 2 [("A", [some 4, some 5]), ("B", [some 2, some 0])]
        (.BinaryOp (.Variable "A") .Div (.Variable "B")) = .ok res ∧
      res.getD 1 none = none := by
  obtain ⟨res, hok, hnull⟩ := evaluateDiv_zero_yields_null getFunction 2
    [("A", [some 4, some 5]), ("B", [some 2, some 0])] (.Variable "A") (.Variable "B")
    [some 4, some 5] [some 2, some 0] (by decide) (by decide) (by decide)
  exact ⟨res, hok, hnull 1 5 (by decide) (by decide) (by decide)⟩

/-! ### Claim C5: the CROSS builtin -/

/-- C5: on equal-length inputs `CROSS` succeeds with a series of the same
length whose elements are all exactly 0 or 1 (never null); the element at
index 0 is 0; and an element at a positive index is 1 exactly when all four
inspected values are numbers with `a` strictly below `b` at the previous
index and strictly above it at the current one. -/
theorem CROSS_upward_only (a b : Series) (_hlen : a.length = b.length) :
    ∃ res, CROSS [a, b] = .ok res ∧ res.length = a.length ∧
      (∀ i, i < a.length → res.getD i none = some 0 ∨ res.getD i none = some 1) ∧
      (0 < a.length → res.getD 0 none = some 0) ∧
      (∀ i, 0 < i → i < a.length →
        (res.getD i none = some 1 ↔
          ∃ x y px py, a.getD i none = some x ∧ b.getD i none = some y ∧
            a.getD (i - 1) none = some px ∧ b.getD (i - 1) none = some py ∧
            px < py ∧ y < x)) := by
  refine ⟨(List.range a.length).map (fun (i : ℕ) =>
      if i = 0 then some 0
      else
        match a.getD i none, b.getD i none, a.getD (i - 1) none, b.getD (i - 1) none with
        | some ai, some bi, some ai1, some bi1 =>
          if ai1 < bi1 ∧ ai > bi then some 1 else some 0
        | _, _, _, _ => some 0), rfl, by simp, ?_, ?_, ?_⟩
  · intro i hi
    rw [getD_range_map _ _ i, if_pos hi]
    rcases Nat.eq_zero_or_pos i with rfl | hpos
    · simp
    · rw [if_neg hpos.ne']
      rcases a.getD i none with _ | x <;> rcases b.getD i none with _ | y <;>
        rcases a.getD (i - 1) none with _ | px <;> rcases b.getD (i - 1) none with _ | py <;>
        first
          | (left; rfl)
          | (dsimp only; split
             · right; rfl
             · left; rfl)
  · intro hpos
    rw [getD_range_map _ _ 0, if_pos hpos]
    rfl
  · intro i hipos hi
    rw [getD_range_map _ _ i, if_pos hi, if_neg hipos.ne']
    constructor
    · intro hone
      rcases hx : a.getD i none with _ | x <;> rw [hx] at hone
      · simp at hone
      · rcases hy : b.getD i none with _ | y <;> rw [hy] at hone
        · simp at hone
        · rcases hpx : a.getD (i - 1) none with _ | px <;> rw [hpx] at hone
          · simp at hone
          · rcases hpy : b.getD (i - 1) none with _ | py <;> rw [hpy] at hone
            · simp at hone
            · dsimp only at hone
              split at hone
              · rename_i hcond
                exact ⟨x, y, px, py, rfl, rfl, rfl, rfl, hcond.1, hcond.2⟩
              · simp at hone
    · rintro ⟨x, y, px, py, hx, hy, hpx, hpy, h1, h2⟩
      rw [hx, hy, hpx, hpy]
      exact if_pos ⟨h1, h2⟩

/-- Witness for the CROSS theorem on `a = [1, 3, 2]`, `b = [2, 2, 5]`: the
result starts at 0 and flags the upward cross at index 1. -/
theorem CROSS_upward_only_witness :
    ∃ res, CROSS [[some 1, some 3, some 2], [some 2, some 2, some 5]] = .ok res ∧
      res.getD 0 none = some 0 ∧ res.getD 1 none = some 1 := by
  obtain ⟨res, hok, -, -, h0, hiff⟩ :=
    CROSS_upward_only [some 1, some 3, some 2] [some 2, some 2, some 5] (by decide)
  exact ⟨res, hok, h0 (by decide),
    (hiff 1 (by decide) (by decide)).2 ⟨3, 2, 1, 2, rfl, rfl, rfl, rfl, by norm_num, by norm_num⟩⟩

/-! ### Claim C6: the REF builtin -/

/-- C6: `REF` with offset 0 is the identity on the data series; with a
natural-number offset `k` it shifts, `result[i] = data[i-k]` for `i ≥ k` and
null before that; and a negative offset is a fatal argument error. -/
theorem REF_shift_semantics :
    (∀ (data offsetArg : Series) (rest : List Series),
      offsetArg.head? = some (some 0) →
      REF (data :: offsetArg :: rest) = .ok data) ∧
    (∀ (data offsetArg : Series) (rest : List Series) (k : ℕ),
      offsetArg.head? = some (some (k : ℚ)) →
      ∃ res, REF (data :: offsetArg :: rest) = .ok res ∧ res.length = data.length ∧
        ∀ i, i < data.length →
          res.getD i none = if k ≤ i then data.getD (i - k) none else none) ∧
    (∀ (data offsetArg : Series) (rest : List Series) (q : ℚ),
      offsetArg.head? = some (some q) → q < 0 →
      REF (data :: offsetArg :: rest) = .error .refNegativeOffset) := by
  have hmain : ∀ (data offsetArg : Series) (rest : List Series) (k : ℕ),
      offsetArg.head? = some (some (k : ℚ)) →
      REF (data :: offsetArg :: rest) =
        .ok ((List.range data.length).map (fun (i : ℕ) =>
          if 0 ≤ (i : ℤ) - (k : ℤ) then jsGet data ((i : ℤ) - (k : ℤ)) else none)) := by
    intro data offsetArg rest k h
    match offsetArg, h with
    | (some v) :: t, h =>
      have hv : v = (k : ℚ) := by simpa using h
      subst hv
      simp only [REF, getNumberArg]
      rw [if_neg (by exact not_lt.mpr (by positivity)), if_pos (by simp)]
      simp only [Rat.num_natCast]
  refine ⟨?_, ?_, ?_⟩
  · intro data offsetArg rest h
    have h0 : offsetArg.head? = some (some ((0 : ℕ) : ℚ)) := by simpa using h
    rw [hmain data offsetArg rest 0 h0]
    congr 1
    apply List.ext_getElem (by simp)
    intro i hi hi2
    have hlen : i < data.length := by simpa using hi
    simp only [List.getElem_map, List.getElem_range]
    rw [if_pos (by omega)]
    simp only [Nat.cast_zero, sub_zero, jsGet, if_pos (Int.ofNat_nonneg i)]
    simp [List.getD_eq_getElem?_getD, List.getElem?_eq_getElem hlen]
  · intro data offsetArg rest k h
    refine ⟨_, hmain data offsetArg rest k h, by simp, ?_⟩
    intro i hi
    rw [getD_range_map _ _ i, if_pos hi]
    rcases le_or_lt k i with hk | hk
    · rw [if_pos (by omega), if_pos hk]
      have htn : ((i : ℤ) - (k : ℤ)).toNat = i - k := by omega
      rw [jsGet, if_pos (by omega), htn]
    · rw [if_neg (by omega), if_neg (by omega)]
  · intro data offsetArg rest q h hneg
    match offsetArg, h with
    | (some v) :: t, h =>
      have hv : v = q := by simpa using h
      subst hv
      simp only [REF, getNumberArg]
      rw [if_pos hneg]

/-! ### Claim C1: the MA builtin -/

/-- Non-null values among `data[i-n+1..i]`, the trailing window of `n`
elements ending at index `i` (meaningful for `n ≤ i + 1`): the claim-side
description of MA's window contents. -/
def windowVals (data : Series) (i n : ℕ) : List ℚ :=
  ((data.drop (i + 1 - n)).take n).filterMap id

lemma windowSumCount_generic (data : Series) (js : List ℤ) (s0 : ℚ) (c0 : ℕ) :
    js.foldl
      (fun sc j =>
        match jsGet data j with
        | some v => (sc.1 + v, sc.2 + 1)
        | none => sc) (s0, c0) =
    (s0 + ((js.map (jsGet data)).filterMap id).sum,
     c0 + ((js.map (jsGet data)).filterMap id).length) := by
  induction js generalizing s0 c0 with
  | nil => simp
  | cons j rest ih =>
    cases hj : jsGet data j with
    | none => simpa [List.foldl_cons, hj] using ih s0 c0
    | some x =>
      simp only [List.foldl_cons, hj, ih (s0 + x) (c0 + 1), List.map_cons,
        List.filterMap_cons, id, List.sum_cons, List.length_cons, Prod.mk.injEq]
      constructor
      · ring
      · omega

lemma windowSumCount_eq (data : Series) (js : List ℤ) :
    windowSumCount data js =
      (((js.map (jsGet data)).filterMap id).sum,
       ((js.map (jsGet data)).filterMap id).length) := by
  simpa using windowSumCount_generic data js 0 0

lemma length_intRange (lo hi : ℤ) : (intRange lo hi).length = (hi + 1 - lo).toNat := by
  simp [intRange]

lemma getElem_intRange (lo hi : ℤ) (k : ℕ) (hk : k < (intRange lo hi).length) :
    (intRange lo hi)[k] = lo + (k : ℤ) := by
  simp [intRange]

lemma intRange_map_jsGet (data : Series) (i n : ℕ) (hn : n ≤ i + 1)
    (hi : i < data.length) :
    (intRange ((i : ℤ) + 1 - (n : ℤ)) (i : ℤ)).map (jsGet data) =
      (data.drop (i + 1 - n)).take n := by
  apply List.ext_getElem
  · simp only [List.length_map, length_intRange, List.length_take, List.length_drop]
    omega
  · intro k hk1 hk2
    have hkn : k < n := by
      have := hk1
      simp only [List.length_map, length_intRange] at this
      omega
    have hidx : i + 1 - n + k < data.length := by omega
    simp only [List.getElem_map, getElem_intRange _ _ k (by simpa using hk1),
      List.getElem_take, List.getElem_drop]
    rw [jsGet, if_pos (by omega)]
    have htn : ((i : ℤ) + 1 - (n : ℤ) + (k : ℤ)).toNat = i + 1 - n + k := by omega
    rw [htn]
    simp [List.getD_eq_getElem?_getD, List.getElem?_eq_getElem hidx]

/-- C1: with a period series whose first element is the natural number
`n ≥ 1`, `MA` succeeds with a series of the data's length: every index below
`n - 1` is null, and every later index holds the sum of the non-null window
values divided by their count, or null when the whole window is null. -/
theorem MA_window_average (data periodArg : Series) (rest : List Series) (n : ℕ)
    (_hn : 1 ≤ n) (hhead : periodArg.head? = some (some (n : ℚ))) :
    ∃ res, MA (data :: periodArg :: rest) = .ok res ∧ res.length = data.length ∧
      ∀ i, i < data.length →
        (i + 1 < n → res.getD i none = none) ∧
        (n ≤ i + 1 →
          res.getD i none =
            if windowVals data i n = [] then none
            else some ((windowVals data i n).sum / ((windowVals data i n).length : ℚ))) := by
  match periodArg, hhead with
  | (some v) :: t, hhead =>
    have hv : v = (n : ℚ) := by simpa using hhead
    subst hv
    have hMA : MA (data :: ((some (n : ℚ)) :: t) :: rest) = .ok (maInt data (n : ℤ)) := by
      simp only [MA, getNumberArg]
      rw [if_pos (by simp)]
      simp only [Rat.num_natCast]
    refine ⟨maInt data (n : ℤ), hMA, by simp [maInt], ?_⟩
    intro i hi
    constructor
    · intro hlt
      rw [maInt, getD_range_map, if_pos hi, if_pos (by omega : (i : ℤ) < (n : ℤ) - 1)]
    · intro hge
      rw [maInt, getD_range_map, if_pos hi, if_neg (by omega : ¬ (i : ℤ) < (n : ℤ) - 1)]
      have hwin : windowSumCount data (intRange ((i : ℤ) + 1 - (n : ℤ)) (i : ℤ)) =
          ((windowVals data i n).sum, (windowVals data i n).length) := by
        rw [windowSumCount_eq, intRange_map_jsGet data i n hge hi]
        rfl
      rw [hwin]
      by_cases hW : windowVals data i n = []
      · rw [if_pos hW, if_neg (by simp [hW])]
      · rw [if_neg hW, if_pos (by simpa using List.length_pos.mpr hW)]

/-- Witness for the MA theorem on spec Scenario A: closes `[11..15]` with
period 3 give `[null, null, 12, 13, 14]`. -/
theorem MA_window_average_witness :
    ∃ res, MA [[some 11, some 12, some 13, some 14, some 15],
        [some 3, some 3, some 3, some 3, some 3]] = .ok res ∧
      res.getD 1 none = none ∧ res.getD 2 none = some 12 ∧ res.getD 4 none = some 14 := by
  obtain ⟨res, hok, -, helem⟩ := MA_window_average
    [some 11, some 12, some 13, some 14, some 15]
    [some 3, some 3, some 3, some 3, some 3] [] 3 (by norm_num) (by norm_num)
  refine ⟨res, hok, (helem 1 (by norm_num)).1 (by norm_num), ?_, ?_⟩
  · have h2 := (helem 2 (by norm_num)).2 (by norm_num)
    rw [h2, if_neg (by simp [windowVals, List.filterMap_cons])]
    norm_num [windowVals, List.filterMap_cons]
  · have h4 := (helem 4 (by norm_num)).2 (by norm_num)
    rw [h4, if_neg (by simp [windowVals, List.filterMap_cons])]
    norm_num [windowVals, List.filterMap_cons]

/-- Witness for the REF theorem: identity at offset 0, shift by one, and the
negative-offset error, all on `[11, 12, 13]`. -/
theorem REF_shift_semantics_witness :
    REF [[some 11, some 12, some 13], [some 0, some 0, some 0]] =
      .ok [some 11, some 12, some 13] ∧
    (∃ res, REF [[some 11, some 12, some 13], [some 1, some 1, some 1]] = .ok res ∧
      res.getD 0 none = none ∧ res.getD 1 none = some 11) ∧
    REF [[some 11, some 12, some 13], [some (-2), some (-2), some (-2)]] =
      .error .refNegativeOffset := by
  obtain ⟨hid, hshift, hneg⟩ := REF_shift_semantics
  refine ⟨hid [some 11, some 12, some 13] [some 0, some 0, some 0] [] (by decide), ?_,
    hneg [some 11, some 12, some 13] [some (-2), some (-2), some (-2)] [] (-2) (by decide)
      (by norm_num)⟩
  obtain ⟨res, hok, -, helem⟩ :=
    hshift [some 11, some 12, some 13] [some 1, some 1, some 1] [] 1 (by norm_num)
  refine ⟨res, hok, ?_, ?_⟩
  · have := helem 0 (by decide)
    simpa using this
  · have := helem 1 (by decide)
    simpa using this

/-! ### Claim C4: environment lifetime across evaluateFormula calls -/

lemma envGet_envSet_self (env : Environment) (k : String) (v : Series) :
    envGet (envSet env k v) k = some v := by
  induction env with
  | nil => simp [envSet, envGet]
  | cons p rest ih =>
    obtain ⟨k', v'⟩ := p
    by_cases h : k' = k
    · simp [envSet, envGet, h]
    · simp [envSet, envGet, h, ih]

/-- One-bar input data used by the reuse scenario. -/
def c4Input : InputData :=
  { opens := [some 1], highs := [some 1], lows := [some 1],
    closes := [some 1], volumes := [some 1], numBars := 1 }

/-- First formula of the reuse scenario: bind `X`. -/
def c4FormulaA : Formula := ⟨[.Assignment "X" (.Literal 2)]⟩

/-- Second formula of the reuse scenario: read `X`. -/
def c4FormulaB : Formula := ⟨[.Output none (.Variable "X") []]⟩

/-- The evaluator state after the first call on a fresh instance. -/
def c4StateAfterA : EvaluatorState :=
  match evaluateFormula getFunction (mkEvaluator c4Input) c4FormulaA with
  | .ok (_, s) => s
  | .error _ => mkEvaluator c4Input

/-- Counterexample to C4 as stated: after a completed `evaluateFormula` call
that assigned `X`, the same instance's environment still holds `X`, and a
second call that references `X` succeeds (returning the bound series) instead
of failing with an undefined-variable error as a fresh builtin-only
environment would force. -/
theorem evaluator_reuse_counterexample :
    (evaluateFormula getFunction (mkEvaluator c4Input) c4FormulaA).isOk = true ∧
    envGet c4StateAfterA.environment "X" = some [some 2] ∧
    evaluateFormula getFunction c4StateAfterA c4FormulaB =
      .ok (⟨[⟨"output_1", [some 2], []⟩]⟩,
        { c4StateAfterA with outputLines := [⟨"output_1", [some 2], []⟩] }) := by
  refine ⟨by decide, by decide, by decide⟩

/-- C4 amended: the output accumulator is reset at the start of every
`evaluateFormula` call (the result never depends on previously accumulated
output lines), but the environment belongs to the instance and persists
across calls: after a call that assigned `x`, the binding is present in the
instance state and a second call reading `x` succeeds with the bound
series. -/
theorem evaluator_reuse_semantics
    (reg : String → Option FunctionType) (s : EvaluatorState) (f : Formula)
    (outs : List OutputLineResult) (x : String) (e : Expr) (v : Series) :
    (evaluateFormula reg { s with outputLines := outs } f = evaluateFormula reg s f) ∧
    (evaluateExpr reg s.inputData.numBars s.environment e = .ok v →
      evaluateFormula reg s ⟨[.Assignment x e]⟩ =
        .ok (⟨[]⟩, { s with environment := envSet s.environment x v, outputLines := [] }) ∧
      evaluateFormula reg { s with environment := envSet s.environment x v, outputLines := [] }
          ⟨[.Output none (.Variable x) []]⟩ =
        .ok (⟨[⟨"output_1", v, []⟩]⟩,
          { s with environment := envSet s.environment x v,
                   outputLines := [⟨"output_1", v, []⟩] })) := by
  constructor
  · rfl
  · intro he
    constructor
    · simp only [evaluateFormula, evalStatements, he]
    · simp only [evaluateFormula, evalStatements, evaluateExpr, envGet_envSet_self]
      rfl

/-- Witness for the amended C4 theorem on the concrete one-bar scenario. -/
theorem evaluator_reuse_semantics_witness :
    evaluateFormula getFunction (mkEvaluator c4Input) ⟨[.Assignment "X" (.Literal 2)]⟩ =
      .ok (⟨[]⟩, { mkEvaluator c4Input with
        environment := envSet (mkEvaluator c4Input).environment "X" [some 2],
        outputLines := [] }) ∧
    evaluateFormula getFunction { mkEvaluator c4Input with
        environment := envSet (mkEvaluator c4Input).environment "X" [some 2],
        outputLines := [] } ⟨[.Output none (.Variable "X") []]⟩ =
      .ok (⟨[⟨"output_1", [some 2], []⟩]⟩,
        { mkEvaluator c4Input with
          environment := envSet (mkEvaluator c4Input).environment "X" [some 2],
          outputLines := [⟨"output_1", [some 2], []⟩] }) :=
  (evaluator_reuse_semantics getFunction (mkEvaluator c4Input) ⟨[]⟩ [] "X"
    (.Literal 2) [some 2]).2 (by decide)

/-! ### Lexer state observations

Every decision of the lexer depends on the state only through its unconsumed
suffix `remaining`; these lemmas express the primitive accessors in terms of
it. -/

lemma LexerState.isAtEnd_eq (s : LexerState) : s.isAtEnd = s.remaining.isEmpty := by
  unfold LexerState.isAtEnd LexerState.remaining
  by_cases h : s.input.length ≤ s.position
  · simp [h, List.isEmpty_iff, List.drop_eq_nil_iff]
  · simp [h, List.isEmpty_iff, List.drop_eq_nil_iff]

lemma LexerState.remaining_head? (s : LexerState) :
    s.remaining.head? = s.input[s.position]? := by
  simp [LexerState.remaining, List.head?_eq_getElem?, List.getElem?_drop]

lemma LexerState.remaining_tail (s : LexerState) :
    s.remaining.tail = s.input.drop (s.position + 1) := by
  simp [LexerState.remaining, List.tail_drop]

lemma LexerState.peek_eq (s : LexerState) : s.peek = s.remaining.headD '\x00' := by
  rw [LexerState.peek]
  by_cases h : s.input.length ≤ s.position
  · have hrem : s.remaining = [] := by
      simp [LexerState.remaining, List.drop_eq_nil_iff, h]
    simp [LexerState.isAtEnd, h, hrem]
  · have hlt : s.position < s.input.length := by omega
    simp [LexerState.isAtEnd, h, List.headD_eq_head?_getD, LexerState.remaining_head?,
      List.getD_eq_getElem?_getD]

lemma LexerState.peekNext_eq (s : LexerState) :
    s.peekNext = s.remaining.tail.headD '\x00' := by
  rw [LexerState.peekNext, LexerState.remaining_tail]
  by_cases h : s.input.length ≤ s.position + 1
  · have hnil : s.input.drop (s.position + 1) = [] := by
      simp [List.drop_eq_nil_iff, h]
    simp [h, hnil]
  · have hh : (s.input.drop (s.position + 1)).head? = s.input[s.position + 1]? := by
      simp [List.head?_eq_getElem?, List.getElem?_drop]
    simp [h, List.headD_eq_head?_getD, hh, List.getD_eq_getElem?_getD]

lemma LexerState.advance_fst (s : LexerState) : (s.advance).1 = s.remaining.headD '\x00' := by
  rw [LexerState.advance]
  by_cases h : s.input.length ≤ s.position
  · have hrem : s.remaining = [] := by
      simp [LexerState.remaining, List.drop_eq_nil_iff, h]
    simp [LexerState.isAtEnd, h, hrem]
  · simp [LexerState.isAtEnd, h, List.headD_eq_head?_getD, LexerState.remaining_head?,
      List.getD_eq_getElem?_getD]

lemma LexerState.advance_remaining (s : LexerState) :
    (s.advance).2.remaining = s.remaining.tail := by
  rw [LexerState.advance]
  by_cases h : s.input.length ≤ s.position
  · have hrem : s.remaining = [] := by
      simp [LexerState.remaining, List.drop_eq_nil_iff, h]
    simp [LexerState.isAtEnd, h, hrem]
  · simp [LexerState.isAtEnd, h, LexerState.remaining, List.tail_drop]

lemma LexerState.remaining_withLine (s : LexerState) (l c : ℕ) :
    (LexerState.mk s.input s.position l c).remaining = s.remaining := rfl

/-! ### Lexer bisimulation

Two states with the same unconsumed suffix produce the same token kind and
again states with the same suffix, whatever their absolute position and
line/column counters. -/

lemma skipWhitespace_bisim (fuel : ℕ) :
    ∀ s1 s2 : LexerState, s1.remaining = s2.remaining →
    (skipWhitespace fuel s1).remaining = (skipWhitespace fuel s2).remaining := by
  induction fuel with
  | zero => intro s1 s2 h; simpa [skipWhitespace] using h
  | succ fuel ih =>
    intro s1 s2 h
    simp only [skipWhitespace]
    rw [LexerState.isAtEnd_eq, LexerState.isAtEnd_eq, h, LexerState.peek_eq,
      LexerState.peek_eq, h]
    by_cases hemp : s2.remaining.isEmpty
    · simp [hemp, h]
    · simp only [hemp, Bool.false_eq_true, if_false]
      by_cases hc : s2.remaining.headD '\x00' = ' ' ∨ s2.remaining.headD '\x00' = '\t' ∨
          s2.remaining.headD '\x00' = '\r'
      · rw [if_pos hc, if_pos hc]
        exact ih _ _ (by rw [LexerState.advance_remaining, LexerState.advance_remaining, h])
      · rw [if_neg hc, if_neg hc]; exact h

lemma skipComment_bisim (fuel : ℕ) :
    ∀ s1 s2 : LexerState, s1.remaining = s2.remaining →
    (skipComment fuel s1).remaining = (skipComment fuel s2).remaining := by
  induction fuel with
  | zero => intro s1 s2 h; simpa [skipComment] using h
  | succ fuel ih =>
    intro s1 s2 h
    simp only [skipComment]
    rw [LexerState.isAtEnd_eq, LexerState.isAtEnd_eq, h, LexerState.peek_eq,
      LexerState.peek_eq, h]
    by_cases hemp : s2.remaining.isEmpty
    · simp [hemp, h]
    · simp only [hemp, Bool.false_eq_true, if_false]
      by_cases hbrace : s2.remaining.headD '\x00' = '\x7d'
      · rw [if_pos hbrace, if_pos hbrace, LexerState.advance_remaining,
          LexerState.advance_remaining, h]
      · rw [if_neg hbrace, if_neg hbrace]
        apply ih
        rw [LexerState.advance_remaining, LexerState.advance_remaining]
        by_cases hnl : s2.remaining.headD '\x00' = '\n'
        · rw [if_pos hnl, if_pos hnl]
          exact congrArg List.tail h
        · rw [if_neg hnl, if_neg hnl]
          exact congrArg List.tail h

lemma readDigits_bisim (fuel : ℕ) :
    ∀ (s1 s2 : LexerState) (acc : String), s1.remaining = s2.remaining →
    (readDigits fuel s1 acc).1 = (readDigits fuel s2 acc).1 ∧
    (readDigits fuel s1 acc).2.remaining = (readDigits fuel s2 acc).2.remaining := by
  induction fuel with
  | zero => intro s1 s2 acc h; simp [readDigits, h]
  | succ fuel ih =>
    intro s1 s2 acc h
    simp only [readDigits]
    rw [LexerState.isAtEnd_eq, LexerState.isAtEnd_eq, h, LexerState.peek_eq,
      LexerState.peek_eq, h, LexerState.advance_fst, LexerState.advance_fst, h]
    by_cases hc : ¬ s2.remaining.isEmpty = true ∧ isDigit (s2.remaining.headD '\x00') = true
    · rw [if_pos hc, if_pos hc]
      exact ih _ _ _ (by rw [LexerState.advance_remaining, LexerState.advance_remaining, h])
    · rw [if_neg hc, if_neg hc]; exact ⟨rfl, h⟩

lemma readIdentChars_bisim (fuel : ℕ) :
    ∀ (s1 s2 : LexerState) (acc : String), s1.remaining = s2.remaining →
    (readIdentChars fuel s1 acc).1 = (readIdentChars fuel s2 acc).1 ∧
    (readIdentChars fuel s1 acc).2.remaining = (readIdentChars fuel s2 acc).2.remaining := by
  induction fuel with
  | zero => intro s1 s2 acc h; simp [readIdentChars, h]
  | succ fuel ih =>
    intro s1 s2 acc h
    simp only [readIdentChars]
    rw [LexerState.isAtEnd_eq, LexerState.isAtEnd_eq, h, LexerState.peek_eq,
      LexerState.peek_eq, h, LexerState.advance_fst, LexerState.advance_fst, h]
    by_cases hc : ¬ s2.remaining.isEmpty = true ∧
        isAlphaNumeric (s2.remaining.headD '\x00') = true
    · rw [if_pos hc, if_pos hc]
      exact ih _ _ _ (by rw [LexerState.advance_remaining, LexerState.advance_remaining, h])
    · rw [if_neg hc, if_neg hc]; exact ⟨rfl, h⟩

lemma readStringChars_bisim (fuel : ℕ) :
    ∀ (s1 s2 : LexerState) (acc : String), s1.remaining = s2.remaining →
    (readStringChars fuel s1 acc).1 = (readStringChars fuel s2 acc).1 ∧
    (readStringChars fuel s1 acc).2.remaining = (readStringChars fuel s2 acc).2.remaining := by
  induction fuel with
  | zero => intro s1 s2 acc h; simp [readStringChars, h]
  | succ fuel ih =>
    intro s1 s2 acc h
    simp only [readStringChars]
    rw [LexerState.isAtEnd_eq, LexerState.isAtEnd_eq, h, LexerState.peek_eq,
      LexerState.peek_eq, h]
    by_cases hc : ¬ s2.remaining.isEmpty = true ∧ ¬ s2.remaining.headD '\x00' = '"'
    · rw [if_pos hc, if_pos hc]
      have h1 : (if s2.remaining.headD '\x00' = '\n' then
          { s1 with line := s1.line + 1, column := 1 } else s1).remaining = s2.remaining := by
        split <;> simpa [LexerState.remaining] using h
      have h2 : (if s2.remaining.headD '\x00' = '\n' then
          { s2 with line := s2.line + 1, column := 1 } else s2).remaining = s2.remaining := by
        split <;> simp [LexerState.remaining]
      rw [LexerState.advance_fst, LexerState.advance_fst, h1, h2]
      exact ih _ _ _ (by rw [LexerState.advance_remaining, LexerState.advance_remaining, h1, h2])
    · rw [if_neg hc, if_neg hc]; exact ⟨rfl, h⟩

lemma consumeCharToken_bisim (tokenType : TokenType) (s1 s2 : LexerState)
    (h : s1.remaining = s2.remaining) :
    (consumeCharToken s1 tokenType).1.tokenType = (consumeCharToken s2 tokenType).1.tokenType ∧
    (consumeCharToken s1 tokenType).2.remaining = (consumeCharToken s2 tokenType).2.remaining :=
  ⟨rfl, by
    show (s1.advance).2.remaining = (s2.advance).2.remaining
    rw [LexerState.advance_remaining, LexerState.advance_remaining, h]⟩

lemma twoCharState_bisim (s1 s2 : LexerState) (h : s1.remaining = s2.remaining) :
    ((s1.advance).2.advance).2.remaining = ((s2.advance).2.advance).2.remaining := by
  rw [LexerState.advance_remaining, LexerState.advance_remaining,
    LexerState.advance_remaining, LexerState.advance_remaining, h]

lemma handleColon_bisim (s1 s2 : LexerState) (h : s1.remaining = s2.remaining) :
    (handleColon s1).1.tokenType = (handleColon s2).1.tokenType ∧
    (handleColon s1).2.remaining = (handleColon s2).2.remaining := by
  simp only [handleColon]
  rw [LexerState.peekNext_eq, LexerState.peekNext_eq, h]
  by_cases hc : s2.remaining.tail.headD '\x00' = '='
  · rw [if_pos hc, if_pos hc]
    exact ⟨rfl, twoCharState_bisim s1 s2 h⟩
  · rw [if_neg hc, if_neg hc]
    exact consumeCharToken_bisim _ s1 s2 h

lemma handleGreater_bisim (s1 s2 : LexerState) (h : s1.remaining = s2.remaining) :
    (handleGreater s1).1.tokenType = (handleGreater s2).1.tokenType ∧
    (handleGreater s1).2.remaining = (handleGreater s2).2.remaining := by
  simp only [handleGreater]
  rw [LexerState.peekNext_eq, LexerState.peekNext_eq, h]
  by_cases hc : s2.remaining.tail.headD '\x00' = '='
  · rw [if_pos hc, if_pos hc]
    exact ⟨rfl, twoCharState_bisim s1 s2 h⟩
  · rw [if_neg hc, if_neg hc]
    exact consumeCharToken_bisim _ s1 s2 h

lemma handleLess_bisim (s1 s2 : LexerState) (h : s1.remaining = s2.remaining) :
    (handleLess s1).1.tokenType = (handleLess s2).1.tokenType ∧
    (handleLess s1).2.remaining = (handleLess s2).2.remaining := by
  simp only [handleLess]
  rw [LexerState.peekNext_eq, LexerState.peekNext_eq, h]
  by_cases hc : s2.remaining.tail.headD '\x00' = '='
  · rw [if_pos hc, if_pos hc]
    exact ⟨rfl, twoCharState_bisim s1 s2 h⟩
  · rw [if_neg hc, if_neg hc]
    by_cases hg : s2.remaining.tail.headD '\x00' = '>'
    · rw [if_pos hg, if_pos hg]
      exact ⟨rfl, twoCharState_bisim s1 s2 h⟩
    · rw [if_neg hg, if_neg hg]
      exact consumeCharToken_bisim _ s1 s2 h

lemma handleEqual_bisim (s1 s2 : LexerState) (h : s1.remaining = s2.remaining) :
    (handleEqual s1).1.tokenType = (handleEqual s2).1.tokenType ∧
    (handleEqual s1).2.remaining = (handleEqual s2).2.remaining := by
  simp only [handleEqual]
  rw [LexerState.peekNext_eq, LexerState.peekNext_eq, h]
  by_cases hc : s2.remaining.tail.headD '\x00' = '='
  · rw [if_pos hc, if_pos hc]
    exact ⟨rfl, twoCharState_bisim s1 s2 h⟩
  · rw [if_neg hc, if_neg hc]
    exact consumeCharToken_bisim _ s1 s2 h

lemma remaining_update (s : LexerState) (l c : ℕ) :
    ({ s with line := l, column := c }).remaining = s.remaining := rfl

lemma handleNewline_bisim (s1 s2 : LexerState) (h : s1.remaining = s2.remaining) :
    (handleNewline s1).1.tokenType = (handleNewline s2).1.tokenType ∧
    (handleNewline s1).2.remaining = (handleNewline s2).2.remaining := by
  refine ⟨rfl, ?_⟩
  have e1 : (handleNewline s1).2.remaining = (s1.advance).2.remaining := rfl
  have e2 : (handleNewline s2).2.remaining = (s2.advance).2.remaining := rfl
  rw [e1, e2, LexerState.advance_remaining, LexerState.advance_remaining, h]

lemma readNumber_bisim (fuel : ℕ) (s1 s2 : LexerState) (h : s1.remaining = s2.remaining) :
    (readNumber fuel s1).1.tokenType = (readNumber fuel s2).1.tokenType ∧
    (readNumber fuel s1).2.remaining = (readNumber fuel s2).2.remaining := by
  refine ⟨rfl, ?_⟩
  simp only [readNumber]
  obtain ⟨hstr, hrem⟩ := readDigits_bisim fuel s1 s2 "" h
  rw [LexerState.isAtEnd_eq, LexerState.isAtEnd_eq, hrem, LexerState.peek_eq,
    LexerState.peek_eq, hrem, LexerState.advance_fst, LexerState.advance_fst, hrem, hstr]
  by_cases hc : ¬ (readDigits fuel s2 "").2.remaining.isEmpty = true ∧
      (readDigits fuel s2 "").2.remaining.headD '\x00' = '.'
  · rw [if_pos hc, if_pos hc]
    exact (readDigits_bisim fuel _ _ _ (by
      rw [LexerState.advance_remaining, LexerState.advance_remaining, hrem])).2
  · rw [if_neg hc, if_neg hc]
    exact hrem

lemma readIdentifier_bisim (fuel : ℕ) (s1 s2 : LexerState)
    (h : s1.remaining = s2.remaining) :
    (readIdentifier fuel s1).1.tokenType = (readIdentifier fuel s2).1.tokenType ∧
    (readIdentifier fuel s1).2.remaining = (readIdentifier fuel s2).2.remaining := by
  obtain ⟨hstr, hrem⟩ := readIdentChars_bisim fuel s1 s2 "" h
  simp only [readIdentifier]
  rw [hstr]
  exact ⟨rfl, hrem⟩

lemma readString_bisim (fuel : ℕ) (s1 s2 : LexerState) (h : s1.remaining = s2.remaining) :
    (readString fuel s1).1.tokenType = (readString fuel s2).1.tokenType ∧
    (readString fuel s1).2.remaining = (readString fuel s2).2.remaining := by
  obtain ⟨hstr, hrem⟩ := readStringChars_bisim fuel (s1.advance).2 (s2.advance).2 ""
    (by rw [LexerState.advance_remaining, LexerState.advance_remaining, h])
  simp only [readString]
  rw [LexerState.isAtEnd_eq, LexerState.isAtEnd_eq, hrem]
  by_cases hc : (readStringChars fuel (s2.advance).2 "").2.remaining.isEmpty
  · rw [if_pos hc, if_pos hc]
    exact ⟨rfl, hrem⟩
  · rw [if_neg hc, if_neg hc]
    refine ⟨rfl, ?_⟩
    rw [LexerState.advance_remaining, LexerState.advance_remaining, hrem]

lemma nextTokenDispatch_bisim (fuel : ℕ) (recur : LexerState → Token × LexerState)
    (hF : ∀ u1 u2 : LexerState, u1.remaining = u2.remaining →
      (recur u1).1.tokenType = (recur u2).1.tokenType ∧
      (recur u1).2.remaining = (recur u2).2.remaining) :
    ∀ s1 s2 : LexerState, s1.remaining = s2.remaining →
    (nextTokenDispatch fuel recur s1).1.tokenType =
      (nextTokenDispatch fuel recur s2).1.tokenType ∧
    (nextTokenDispatch fuel recur s1).2.remaining =
      (nextTokenDispatch fuel recur s2).2.remaining := by
  intro s1 s2 h
  simp only [nextTokenDispatch]
  rw [LexerState.isAtEnd_eq, LexerState.isAtEnd_eq, h, LexerState.peek_eq,
    LexerState.peek_eq, h]
  by_cases hemp : s2.remaining.isEmpty = true
  · rw [if_pos hemp, if_pos hemp]
    exact ⟨rfl, h⟩
  · rw [if_neg hemp, if_neg hemp]
    by_cases h1 : s2.remaining.headD '\x00' = '('
    · rw [if_pos h1, if_pos h1]; exact consumeCharToken_bisim _ _ _ h
    rw [if_neg h1, if_neg h1]
    by_cases h2 : s2.remaining.headD '\x00' = ')'
    · rw [if_pos h2, if_pos h2]; exact consumeCharToken_bisim _ _ _ h
    rw [if_neg h2, if_neg h2]
    by_cases h3 : s2.remaining.headD '\x00' = ','
    · rw [if_pos h3, if_pos h3]; exact consumeCharToken_bisim _ _ _ h
    rw [if_neg h3, if_neg h3]
    by_cases h4 : s2.remaining.headD '\x00' = ';'
    · rw [if_pos h4, if_pos h4]; exact consumeCharToken_bisim _ _ _ h
    rw [if_neg h4, if_neg h4]
    by_cases h5 : s2.remaining.headD '\x00' = '+'
    · rw [if_pos h5, if_pos h5]; exact consumeCharToken_bisim _ _ _ h
    rw [if_neg h5, if_neg h5]
    by_cases h6 : s2.remaining.headD '\x00' = '-'
    · rw [if_pos h6, if_pos h6]; exact consumeCharToken_bisim _ _ _ h
    rw [if_neg h6, if_neg h6]
    by_cases h7 : s2.remaining.headD '\x00' = '*'
    · rw [if_pos h7, if_pos h7]; exact consumeCharToken_bisim _ _ _ h
    rw [if_neg h7, if_neg h7]
    by_cases h8 : s2.remaining.headD '\x00' = '/'
    · rw [if_pos h8, if_pos h8]; exact consumeCharToken_bisim _ _ _ h
    rw [if_neg h8, if_neg h8]
    by_cases h9 : s2.remaining.headD '\x00' = ':'
    · rw [if_pos h9, if_pos h9]; exact handleColon_bisim _ _ h
    rw [if_neg h9, if_neg h9]
    by_cases h10 : s2.remaining.headD '\x00' = '>'
    · rw [if_pos h10, if_pos h10]; exact handleGreater_bisim _ _ h
    rw [if_neg h10, if_neg h10]
    by_cases h11 : s2.remaining.headD '\x00' = '<'
    · rw [if_pos h11, if_pos h11]; exact handleLess_bisim _ _ h
    rw [if_neg h11, if_neg h11]
    by_cases h12 : s2.remaining.headD '\x00' = '='
    · rw [if_pos h12, if_pos h12]; exact handleEqual_bisim _ _ h
    rw [if_neg h12, if_neg h12]
    by_cases h13 : s2.remaining.headD '\x00' = '"'
    · rw [if_pos h13, if_pos h13]; exact readString_bisim _ _ _ h
    rw [if_neg h13, if_neg h13]
    by_cases h14 : s2.remaining.headD '\x00' = '\n'
    · rw [if_pos h14, if_pos h14]; exact handleNewline_bisim _ _ h
    rw [if_neg h14, if_neg h14]
    by_cases h15 : s2.remaining.headD '\x00' = '\x7b'
    · rw [if_pos h15, if_pos h15]
      exact hF _ _ (skipComment_bisim (fuel + 1) _ _ h)
    rw [if_neg h15, if_neg h15]
    by_cases h16 : isDigit (s2.remaining.headD '\x00') = true
    · rw [if_pos h16, if_pos h16]; exact readNumber_bisim _ _ _ h
    rw [if_neg h16, if_neg h16]
    by_cases h17 : isAlpha (s2.remaining.headD '\x00') = true
    · rw [if_pos h17, if_pos h17]; exact readIdentifier_bisim _ _ _ h
    rw [if_neg h17, if_neg h17]
    exact ⟨rfl, h⟩

lemma nextTokenF_bisim (fuel : ℕ) :
    ∀ s1 s2 : LexerState, s1.remaining = s2.remaining →
    (nextTokenF fuel s1).1.tokenType = (nextTokenF fuel s2).1.tokenType ∧
    (nextTokenF fuel s1).2.remaining = (nextTokenF fuel s2).2.remaining := by
  induction fuel with
  | zero => intro s1 s2 h; exact ⟨rfl, h⟩
  | succ fuel ih =>
    intro s1 s2 h
    simp only [nextTokenF]
    exact nextTokenDispatch_bisim fuel (nextTokenF fuel) ih _ _
      (skipWhitespace_bisim (fuel + 1) s1 s2 h)

/-- Token kinds and successor suffixes depend only on the unconsumed input. -/
lemma nextToken_bisim (s1 s2 : LexerState) (h : s1.remaining = s2.remaining) :
    (nextToken s1).1.tokenType = (nextToken s2).1.tokenType ∧
    (nextToken s1).2.remaining = (nextToken s2).2.remaining := by
  rw [nextToken, nextToken, h]
  exact nextTokenF_bisim _ s1 s2 h

lemma lexKinds_bisim (n : ℕ) :
    ∀ s1 s2 : LexerState, s1.remaining = s2.remaining →
    lexKinds n s1 = lexKinds n s2 := by
  induction n with
  | zero => intro s1 s2 h; rfl
  | succ n ih =>
    intro s1 s2 h
    obtain ⟨hk, hr⟩ := nextToken_bisim s1 s2 h
    simp only [lexKinds]
    rw [hk, ih _ _ hr]

/-! ### Claims C8 and C9: concrete nextToken computations -/

lemma skipWhitespace_not_ws (fuel : ℕ) (s : LexerState)
    (h : ¬(s.remaining.headD '\x00' = ' ' ∨ s.remaining.headD '\x00' = '\t' ∨
      s.remaining.headD '\x00' = '\r')) :
    skipWhitespace fuel s = s := by
  cases fuel with
  | zero => rfl
  | succ fuel =>
    simp only [skipWhitespace]
    rw [LexerState.peek_eq]
    by_cases hend : s.isAtEnd = true
    · rw [if_pos hend]
    · rw [if_neg hend, if_neg h]

lemma consumeCharToken_tokenType (s : LexerState) (tokenType : TokenType) :
    (consumeCharToken s tokenType).1.tokenType = tokenType := rfl

lemma consumeCharToken_remaining (s : LexerState) (tokenType : TokenType) :
    (consumeCharToken s tokenType).2.remaining = s.remaining.tail :=
  LexerState.advance_remaining s

/-- At a lone `=` or at `==`, `nextToken` lands in `handleEqual`. -/
lemma nextToken_at_equal (s : LexerState) (rest : List Char)
    (h : s.remaining = '=' :: rest) : nextToken s = handleEqual s := by
  rw [nextToken]
  have hlen : s.remaining.length + 1 = rest.length + 1 + 1 := by rw [h]; rfl
  rw [hlen]
  simp only [nextTokenF]
  rw [skipWhitespace_not_ws _ _ (by rw [h]; simp)]
  simp only [nextTokenDispatch]
  rw [LexerState.isAtEnd_eq, LexerState.peek_eq, h]
  simp

/-- C8: at a lone `=` (not followed by another `=`) the lexer produces a
token of kind `EqEq`, exactly as it does at `==`; both consume up to the same
suffix, so the entire token-kind streams of the two texts agree, and the
parser maps the shared kind to the single equality operator `EqEq`.  There is
no separate single-equals token kind. -/
theorem lexer_lone_equal_is_eqeq (s1 s2 : LexerState) (rest : List Char)
    (h1 : s1.remaining = '=' :: rest)
    (hrest : rest.headD '\x00' ≠ '=')
    (h2 : s2.remaining = '=' :: '=' :: rest) :
    (nextToken s1).1.tokenType = .EqEq ∧
    (nextToken s2).1.tokenType = .EqEq ∧
    (nextToken s1).2.remaining = rest ∧
    (nextToken s2).2.remaining = rest ∧
    (∀ n, lexKinds n s1 = lexKinds n s2) ∧
    getBinaryOperator .EqEq = .ok .EqEq := by
  have he1 : nextToken s1 = consumeCharToken s1 .EqEq := by
    rw [nextToken_at_equal s1 rest h1, handleEqual,
      if_neg (by rw [LexerState.peekNext_eq, h1, List.tail_cons]; exact hrest)]
  have he2 : nextToken s2 = ((createToken .EqEq
      ((String.singleton (s2.advance).1).push ((s2.advance).2.advance).1)
      ((s2.advance).2.advance).2.line s2.column), ((s2.advance).2.advance).2) := by
    rw [nextToken_at_equal s2 ('=' :: rest) h2, handleEqual,
      if_pos (by rw [LexerState.peekNext_eq, h2, List.tail_cons]; rfl)]
  have hr1 : (nextToken s1).2.remaining = rest := by
    rw [he1, consumeCharToken_remaining, h1, List.tail_cons]
  have hr2 : (nextToken s2).2.remaining = rest := by
    rw [he2]
    show ((s2.advance).2.advance).2.remaining = rest
    rw [LexerState.advance_remaining, LexerState.advance_remaining, h2]
    rfl
  refine ⟨by rw [he1]; rfl, by rw [he2]; rfl, hr1, hr2, ?_, rfl⟩
  intro n
  cases n with
  | zero => rfl
  | succ n =>
    simp only [lexKinds]
    rw [show (nextToken s1).1.tokenType = TokenType.EqEq from by rw [he1]; rfl,
      show (nextToken s2).1.tokenType = TokenType.EqEq from by rw [he2]; rfl,
      lexKinds_bisim n (nextToken s1).2 (nextToken s2).2 (by rw [hr1, hr2])]

/-- Witness for the lone-equal theorem on the texts `a = b` and `a == b`
positioned at the equality sign. -/
theorem lexer_lone_equal_is_eqeq_witness :
    (nextToken ⟨"a = b".data, 2, 1, 3⟩).1.tokenType = .EqEq ∧
    (nextToken ⟨"a == b".data, 2, 1, 3⟩).1.tokenType = .EqEq ∧
    (nextToken ⟨"a = b".data, 2, 1, 3⟩).2.remaining = [' ', 'b'] ∧
    (nextToken ⟨"a == b".data, 2, 1, 3⟩).2.remaining = [' ', 'b'] ∧
    (∀ n, lexKinds n ⟨"a = b".data, 2, 1, 3⟩ = lexKinds n ⟨"a == b".data, 2, 1, 3⟩) ∧
    getBinaryOperator .EqEq = .ok .EqEq :=
  lexer_lone_equal_is_eqeq ⟨"a = b".data, 2, 1, 3⟩ ⟨"a == b".data, 2, 1, 3⟩
    [' ', 'b'] (by decide) (by decide) (by decide)

/-- C9: at an unrecognized character, `nextToken` returns an `Illegal` token
carrying that character without consuming it — position, line and column are
unchanged (the returned state is the input state itself) — and consequently
every later call returns the same `Illegal` token and the kind stream is
`Illegal` forever, never reaching the end-of-input sentinel. -/
theorem nextToken_illegal_stuck (s : LexerState) (c : Char)
    (hc : s.remaining.head? = some c)
    (hnotws : c ≠ ' ' ∧ c ≠ '\t' ∧ c ≠ '\r' ∧ c ≠ '\n')
    (hnotop : c ≠ '(' ∧ c ≠ ')' ∧ c ≠ ',' ∧ c ≠ ';' ∧ c ≠ '+' ∧ c ≠ '-' ∧ c ≠ '*' ∧
      c ≠ '/' ∧ c ≠ ':' ∧ c ≠ '>' ∧ c ≠ '<' ∧ c ≠ '=' ∧ c ≠ '"' ∧ c ≠ '\x7b')
    (hdig : isDigit c = false) (halpha : isAlpha c = false) :
    nextToken s = (createToken .Illegal (String.singleton c) s.line s.column, s) ∧
    ∀ n, lexKinds n s = List.replicate n .Illegal := by
  have hhead : s.remaining.headD '\x00' = c := by
    rw [List.headD_eq_head?_getD, hc]; rfl
  have hne : s.remaining.isEmpty = false := by
    cases hr : s.remaining with
    | nil => rw [hr] at hc; simp at hc
    | cons a t => simp
  have hmain : nextToken s =
      (createToken .Illegal (String.singleton c) s.line s.column, s) := by
    rw [nextToken]
    have hpos : 0 < s.remaining.length := by
      cases hr : s.remaining with
      | nil => rw [hr] at hc; simp at hc
      | cons a t => simp
    have hlen : s.remaining.length + 1 = (s.remaining.length - 1) + 1 + 1 := by omega
    rw [hlen]
    simp only [nextTokenF]
    rw [skipWhitespace_not_ws _ _ (by
      rw [hhead]
      rintro (h | h | h)
      exacts [hnotws.1 h, hnotws.2.1 h, hnotws.2.2.1 h])]
    simp only [nextTokenDispatch]
    rw [LexerState.isAtEnd_eq, LexerState.peek_eq, hhead,
      if_neg (by rw [hne]; simp),
      if_neg hnotop.1, if_neg hnotop.2.1, if_neg hnotop.2.2.1, if_neg hnotop.2.2.2.1,
      if_neg hnotop.2.2.2.2.1, if_neg hnotop.2.2.2.2.2.1, if_neg hnotop.2.2.2.2.2.2.1,
      if_neg hnotop.2.2.2.2.2.2.2.1, if_neg hnotop.2.2.2.2.2.2.2.2.1,
      if_neg hnotop.2.2.2.2.2.2.2.2.2.1, if_neg hnotop.2.2.2.2.2.2.2.2.2.2.1,
      if_neg hnotop.2.2.2.2.2.2.2.2.2.2.2.1, if_neg hnotop.2.2.2.2.2.2.2.2.2.2.2.2.1,
      if_neg hnotws.2.2.2, if_neg hnotop.2.2.2.2.2.2.2.2.2.2.2.2.2,
      if_neg (by rw [hdig]; simp), if_neg (by rw [halpha]; simp)]
  refine ⟨hmain, ?_⟩
  intro n
  induction n with
  | zero => rfl
  | succ n ih =>
    simp only [lexKinds, hmain, List.replicate_succ]
    rw [ih]
    rfl

/-- Witness for the illegal-character theorem on the text `@`. -/
theorem nextToken_illegal_stuck_witness :
    nextToken (mkLexer "@") = (createToken .Illegal "@" 1 1, mkLexer "@") ∧
    lexKinds 3 (mkLexer "@") = List.replicate 3 .Illegal := by
  have h := nextToken_illegal_stuck (mkLexer "@") '@' (by decide) (by decide)
    (by decide) (by decide) (by decide)
  exact ⟨h.1, h.2 3⟩

/-! ### Claim C7: the IF special case of the call parser -/

lemma parseIfFunction_shape (fuel : ℕ) :
    ∀ (nameTok : Token) (ts : List Token) (e : Expr) (ts' : List Token),
    parseIfFunction fuel nameTok ts = .ok (e, ts') →
    ∃ a b c, e = .FunctionCall "IF" [a, b, c] := by
  cases fuel with
  | zero => intro nameTok ts e ts' h; simp [parseIfFunction] at h
  | succ fuel =>
    intro nameTok ts e ts' h
    simp only [parseIfFunction] at h
    repeat' split at h
    all_goals try simp at h
    obtain ⟨h1, h2⟩ := h
    subst h1
    exact ⟨_, _, _, rfl⟩

/-- C7: a parsed function call whose name upper-cases to `IF` always carries
exactly three arguments; a missing first comma inside an `IF` call raises the
dedicated first error, a missing second comma the dedicated second error; any
other function name parses with any number of comma-separated arguments,
including zero. -/
theorem parser_if_requires_three_args :
    (∀ (fuel : ℕ) (tokenType : TokenType) (ts : List Token) (e : Expr) (ts' : List Token),
      parseFunctionCall fuel tokenType ts = .ok (e, ts') →
      ∃ f args, e = .FunctionCall f args ∧ (toUpperStr f = "IF" → args.length = 3)) ∧
    (∀ (fuel : ℕ) (nameTok : Token) (ts : List Token) (cond : Expr) (ts1 : List Token),
      parseExpression fuel 0 ts = .ok (cond, ts1) →
      (∀ t, ts1.head? = some t → t.tokenType ≠ .Comma) →
      parseIfFunction (fuel + 1) nameTok ts = .error .ifNeedsCommaAfterCond) ∧
    (∀ (fuel : ℕ) (nameTok lp rp : Token) (rest : List Token),
      toUpperStr nameTok.lexeme ≠ "IF" → lp.tokenType = .LParen → rp.tokenType = .RParen →
      parseFunctionCall (fuel + 1) nameTok.tokenType (nameTok :: lp :: rp :: rest) =
        .ok (.FunctionCall nameTok.lexeme [], rest)) ∧
    parseText "IF(1,2)" = .error .ifNeedsCommaAfterTrue ∧
    parseText "IF(1 2,3)" = .error .ifNeedsCommaAfterCond ∧
    parseText "FOO(1,2,3,4)" = .ok ⟨[.Output none (.FunctionCall "FOO"
      [.Literal (parseFloatLit "1"), .Literal (parseFloatLit "2"),
       .Literal (parseFloatLit "3"), .Literal (parseFloatLit "4")]) []]⟩ ∧
    parseText "FOO()" = .ok ⟨[.Output none (.FunctionCall "FOO" []) []]⟩ := by
  refine ⟨?_, ?_, ?_, by rfl, by rfl, by rfl, by rfl⟩
  · intro fuel tokenType ts e ts' h
    cases fuel with
    | zero => simp [parseFunctionCall] at h
    | succ fuel =>
      simp only [parseFunctionCall] at h
      repeat' split at h
      all_goals try simp at h
      all_goals first
        | (obtain ⟨a, b, c, rfl⟩ := parseIfFunction_shape fuel _ _ _ _ h
           exact ⟨"IF", [a, b, c], rfl, fun _ => rfl⟩)
        | (obtain ⟨h1, h2⟩ := h
           subst h1
           exact ⟨_, _, rfl, fun hup => absurd hup (by assumption)⟩)
  · intro fuel nameTok ts cond ts1 hp hnc
    simp only [parseIfFunction, hp]
    cases hh : ts1.head? with
    | none => simp [hh]
    | some t =>
      simp only [hh]
      rw [if_neg (hnc t hh)]
  · intro fuel nameTok lp rp rest hne hlp hrp
    simp [parseFunctionCall, expectToken, hlp, hrp, hne]

/-! ### Claim C10: no parser production consumes a semicolon -/

/-- Number of `Semicolon` tokens in a stream. -/
def countSemis (ts : List Token) : ℕ :=
  ts.countP (fun t => t.tokenType = TokenType.Semicolon)

lemma countSemis_cons_ne (t : Token) (ts : List Token)
    (h : t.tokenType ≠ TokenType.Semicolon) : countSemis (t :: ts) = countSemis ts := by
  simp [countSemis, List.countP_cons, h]

lemma countSemis_tail (ts : List Token) (t : Token) (hh : ts.head? = some t)
    (h : t.tokenType ≠ TokenType.Semicolon) : countSemis ts.tail = countSemis ts := by
  cases ts with
  | nil => simp at hh
  | cons a rest =>
    obtain rfl : a = t := by simpa using hh
    simpa using (countSemis_cons_ne a rest h).symm

lemma expectToken_countSemis (expected : TokenType) (ts : List Token) (t : Token)
    (ts' : List Token) (hexp : expected ≠ TokenType.Semicolon)
    (h : expectToken expected ts = .ok (t, ts')) : countSemis ts' = countSemis ts := by
  cases ts with
  | nil => simp [expectToken] at h
  | cons a rest =>
    simp only [expectToken] at h
    split at h
    · simp only [Except.ok.injEq, Prod.mk.injEq] at h
      obtain ⟨rfl, rfl⟩ := h
      exact (countSemis_cons_ne a rest (by
        rw [(by assumption : a.tokenType = expected)]; exact hexp)).symm
    · simp at h

lemma skipNewlines_countSemis (ts : List Token) :
    countSemis (skipNewlines ts) = countSemis ts := by
  induction ts with
  | nil => rfl
  | cons t rest ih =>
    simp only [skipNewlines]
    split
    · rw [ih, countSemis_cons_ne t rest (by
        rw [(by assumption : t.tokenType = TokenType.Newline)]; simp)]
    · rfl

/-- Every parsing routine, on success, leaves the semicolon count of the
token stream unchanged — no production consumes a `Semicolon` token — and a
successful top-level loop requires a semicolon-free stream. -/
lemma parser_countSemis : ∀ fuel : ℕ,
    (∀ minPrec ts e ts', parseExpression fuel minPrec ts = .ok (e, ts') →
      countSemis ts' = countSemis ts) ∧
    (∀ minPrec left ts e ts', parseInfixLoop fuel minPrec left ts = .ok (e, ts') →
      countSemis ts' = countSemis ts) ∧
    (∀ ts e ts', parsePrefix fuel ts = .ok (e, ts') → countSemis ts' = countSemis ts) ∧
    (∀ tokenType ts e ts', tokenType ≠ TokenType.Semicolon →
      parseFunctionCall fuel tokenType ts = .ok (e, ts') →
      countSemis ts' = countSemis ts) ∧
    (∀ args ts res ts', parseArgsLoop fuel args ts = .ok (res, ts') →
      countSemis ts' = countSemis ts) ∧
    (∀ nameTok ts e ts', parseIfFunction fuel nameTok ts = .ok (e, ts') →
      countSemis ts' = countSemis ts) ∧
    (∀ ts e ts', parseGroupedExpression fuel ts = .ok (e, ts') →
      countSemis ts' = countSemis ts) ∧
    (∀ t rest e ts', t.tokenType ≠ TokenType.Semicolon →
      parseUnaryExpression fuel (t :: rest) = .ok (e, ts') →
      countSemis ts' = countSemis (t :: rest)) ∧
    (∀ styles ts res ts', parsePlotStyles fuel styles ts = .ok (res, ts') →
      countSemis ts' = countSemis ts) ∧
    (∀ ts st ts', parseAssignmentStatement fuel ts = .ok (st, ts') →
      countSemis ts' = countSemis ts) ∧
    (∀ ts st ts', parseNamedOutputStatement fuel ts = .ok (st, ts') →
      countSemis ts' = countSemis ts) ∧
    (∀ ts st ts', parseAnonymousOutputStatement fuel ts = .ok (st, ts') →
      countSemis ts' = countSemis ts) ∧
    (∀ ts st ts', parseStatement fuel ts = .ok (st, ts') →
      countSemis ts' = countSemis ts) ∧
    (∀ acc ts res, parseFormulaLoop fuel acc ts = .ok res → countSemis ts = 0) := by
  intro fuel
  induction fuel with
  | zero =>
    refine ⟨?_, ?_, ?_, ?_, ?_, ?_, ?_, ?_, ?_, ?_, ?_, ?_, ?_, ?_⟩
    · intro minPrec ts e ts' h; simp [parseExpression] at h
    · intro minPrec left ts e ts' h; simp [parseInfixLoop] at h
    · intro ts e ts' h; simp [parsePrefix] at h
    · intro tokenType ts e ts' htt h; simp [parseFunctionCall] at h
    · intro args ts res ts' h; simp [parseArgsLoop] at h
    · intro nameTok ts e ts' h; simp [parseIfFunction] at h
    · intro ts e ts' h; simp [parseGroupedExpression] at h
    · intro t rest e ts' htok h; simp [parseUnaryExpression] at h
    · intro styles ts res ts' h; simp [parsePlotStyles] at h
    · intro ts st ts' h; simp [parseAssignmentStatement] at h
    · intro ts st ts' h; simp [parseNamedOutputStatement] at h
    · intro ts st ts' h; simp [parseAnonymousOutputStatement] at h
    · intro ts st ts' h; simp [parseStatement] at h
    · intro acc ts res h; simp [parseFormulaLoop] at h
  | succ fuel ih =>
    obtain ⟨ihExpr, ihInfix, ihPrefix, ihCall, ihArgs, ihIf, ihGrp, ihUn, ihSty,
      ihAsg, ihNam, ihAnon, ihStmt, ihForm⟩ := ih
    refine ⟨?_, ?_, ?_, ?_, ?_, ?_, ?_, ?_, ?_, ?_, ?_, ?_, ?_, ?_⟩
    · -- parseExpression
      intro minPrec ts e ts' h
      simp only [parseExpression] at h
      split at h
      · simp at h
      · exact (ihInfix _ _ _ _ _ h).trans (ihPrefix _ _ _ (by assumption))
    · -- parseInfixLoop
      intro minPrec left ts e ts' h
      simp only [parseInfixLoop] at h
      split at h
      · simp only [Except.ok.injEq, Prod.mk.injEq] at h
        rw [← h.2]
      · rename_i t rest
        split at h
        · simp only [Except.ok.injEq, Prod.mk.injEq] at h
          rw [← h.2]
        · split at h
          · simp at h
          · split at h
            · simp at h
            · have htok : t.tokenType ≠ TokenType.Semicolon := by
                intro hsemi
                have hzero : (getInfixBindingPower t).1 = 0 := by
                  simp [getInfixBindingPower, hsemi]
                exact absurd (Or.inl hzero) (by assumption)
              exact (ihInfix _ _ _ _ _ h).trans
                (((ihExpr _ _ _ _ (by assumption)).trans
                  (countSemis_cons_ne t rest htok).symm))
    · -- parsePrefix
      intro ts e ts' h
      simp only [parsePrefix] at h
      split at h
      · simp at h
      · rename_i t rest
        split at h
        · rename_i htk
          simp only [Except.ok.injEq, Prod.mk.injEq] at h
          rw [← h.2, countSemis_cons_ne t rest (by rw [htk]; simp)]
        · rename_i htk
          split at h
          · split at h
            · exact ihCall _ _ _ _ (by rw [htk]; simp) h
            · simp only [Except.ok.injEq, Prod.mk.injEq] at h
              rw [← h.2, countSemis_cons_ne t rest (by rw [htk]; simp)]
          · simp only [Except.ok.injEq, Prod.mk.injEq] at h
            rw [← h.2, countSemis_cons_ne t rest (by rw [htk]; simp)]
        · rename_i htk
          split at h
          · split at h
            · exact ihCall _ _ _ _ (by rw [htk]; simp) h
            · simp only [Except.ok.injEq, Prod.mk.injEq] at h
              rw [← h.2, countSemis_cons_ne t rest (by rw [htk]; simp)]
          · simp only [Except.ok.injEq, Prod.mk.injEq] at h
            rw [← h.2, countSemis_cons_ne t rest (by rw [htk]; simp)]
        · exact ihGrp _ _ _ h
        · rename_i htk
          exact ihUn _ _ _ _ (by rw [htk]; simp) h
        · rename_i htk
          exact ihUn _ _ _ _ (by rw [htk]; simp) h
        · simp at h
    · -- parseFunctionCall
      intro tokenType ts e ts' htt h
      simp only [parseFunctionCall] at h
      cases hex1 : expectToken tokenType ts with
      | error e1 => simp [hex1] at h
      | ok p1 =>
        obtain ⟨nameTok, ts1⟩ := p1
        simp only [hex1] at h
        cases hex2 : expectToken .LParen ts1 with
        | error e2 => simp [hex2] at h
        | ok p2 =>
          obtain ⟨lp, ts2⟩ := p2
          simp only [hex2] at h
          have e1c := expectToken_countSemis tokenType ts nameTok ts1 htt hex1
          have e2c := expectToken_countSemis .LParen ts1 lp ts2 (by simp) hex2
          by_cases hIF : toUpperStr nameTok.lexeme = "IF"
          · rw [if_pos hIF] at h
            exact (ihIf _ _ _ _ h).trans (e2c.trans e1c)
          · rw [if_neg hIF] at h
            have argsChain : ∀ (first : Expr) (ts3 : List Token),
                parseExpression fuel 0 ts2 = .ok (first, ts3) →
                (match parseArgsLoop fuel [first] ts3 with
                  | .error e => Except.error e
                  | .ok (args, ts4) =>
                    match expectToken TokenType.RParen ts4 with
                    | .error e => Except.error e
                    | .ok (_, ts5) =>
                      Except.ok (Expr.FunctionCall nameTok.lexeme args, ts5)) =
                  .ok (e, ts') →
                countSemis ts' = countSemis ts := by
              intro first ts3 hexp hrest
              cases hargs : parseArgsLoop fuel [first] ts3 with
              | error e5 => simp [hargs] at hrest
              | ok p5 =>
                obtain ⟨args, ts4⟩ := p5
                simp only [hargs] at hrest
                cases hex4 : expectToken .RParen ts4 with
                | error e6 => simp [hex4] at hrest
                | ok p6 =>
                  obtain ⟨rp2, ts5⟩ := p6
                  simp only [hex4, Except.ok.injEq, Prod.mk.injEq] at hrest
                  rw [← hrest.2]
                  exact (expectToken_countSemis _ _ _ _ (by simp) hex4).trans
                    ((ihArgs _ _ _ _ hargs).trans
                      ((ihExpr _ _ _ _ hexp).trans (e2c.trans e1c)))
            cases hh : ts2.head? with
            | some t =>
              simp only [hh] at h
              by_cases hrp : t.tokenType = TokenType.RParen
              · rw [if_pos hrp] at h
                cases hex3 : expectToken .RParen ts2 with
                | error e3 => simp [hex3] at h
                | ok p3 =>
                  obtain ⟨rp, ts3⟩ := p3
                  simp only [hex3, Except.ok.injEq, Prod.mk.injEq] at h
                  rw [← h.2]
                  exact (expectToken_countSemis _ _ _ _ (by simp) hex3).trans
                    (e2c.trans e1c)
              · rw [if_neg hrp] at h
                cases hexp : parseExpression fuel 0 ts2 with
                | error e4 => simp [hexp] at h
                | ok p4 =>
                  obtain ⟨first, ts3⟩ := p4
                  simp only [hexp] at h
                  exact argsChain first ts3 hexp h
            | none =>
              simp only [hh] at h
              cases hexp : parseExpression fuel 0 ts2 with
              | error e4 => simp [hexp] at h
              | ok p4 =>
                obtain ⟨first, ts3⟩ := p4
                simp only [hexp] at h
                exact argsChain first ts3 hexp h
    · -- parseArgsLoop
      intro args ts res ts' h
      simp only [parseArgsLoop] at h
      split at h
      · rename_i t rest
        split at h
        · split at h
          · simp at h
          · have htok : t.tokenType ≠ TokenType.Semicolon := by
              rw [(by assumption : t.tokenType = TokenType.Comma)]; simp
            exact (ihArgs _ _ _ _ h).trans
              ((ihExpr _ _ _ _ (by assumption)).trans
                (countSemis_cons_ne t rest htok).symm)
        · simp only [Except.ok.injEq, Prod.mk.injEq] at h
          rw [← h.2]
      · simp only [Except.ok.injEq, Prod.mk.injEq] at h
        rw [← h.2]
    · -- parseIfFunction
      intro nameTok ts e ts' h
      simp only [parseIfFunction] at h
      cases hc1 : parseExpression fuel 0 ts with
      | error e1 => simp [hc1] at h
      | ok p1 =>
        obtain ⟨cond, ts1⟩ := p1
        simp only [hc1] at h
        cases hh1 : ts1.head? with
        | none => simp [hh1] at h
        | some t1 =>
          simp only [hh1] at h
          by_cases hcm1 : t1.tokenType = TokenType.Comma
          · rw [if_pos hcm1] at h
            cases hc2 : parseExpression fuel 0 ts1.tail with
            | error e2 => simp [hc2] at h
            | ok p2 =>
              obtain ⟨tv, ts2⟩ := p2
              simp only [hc2] at h
              cases hh2 : ts2.head? with
              | none => simp [hh2] at h
              | some t2 =>
                simp only [hh2] at h
                by_cases hcm2 : t2.tokenType = TokenType.Comma
                · rw [if_pos hcm2] at h
                  cases hc3 : parseExpression fuel 0 ts2.tail with
                  | error e3 => simp [hc3] at h
                  | ok p3 =>
                    obtain ⟨fv, ts3⟩ := p3
                    simp only [hc3] at h
                    cases hc4 : expectToken .RParen ts3 with
                    | error e4 => simp [hc4] at h
                    | ok p4 =>
                      obtain ⟨rp, ts4⟩ := p4
                      simp only [hc4, Except.ok.injEq, Prod.mk.injEq] at h
                      rw [← h.2]
                      calc countSemis ts4
                          = countSemis ts3 :=
                            expectToken_countSemis _ _ _ _ (by simp) hc4
                        _ = countSemis ts2.tail := ihExpr _ _ _ _ hc3
                        _ = countSemis ts2 :=
                            countSemis_tail ts2 t2 hh2 (by rw [hcm2]; simp)
                        _ = countSemis ts1.tail := ihExpr _ _ _ _ hc2
                        _ = countSemis ts1 :=
                            countSemis_tail ts1 t1 hh1 (by rw [hcm1]; simp)
                        _ = countSemis ts := ihExpr _ _ _ _ hc1
                · rw [if_neg hcm2] at h; simp at h
          · rw [if_neg hcm1] at h; simp at h
    · -- parseGroupedExpression
      intro ts e ts' h
      simp only [parseGroupedExpression] at h
      cases hex1 : expectToken .LParen ts with
      | error e1 => simp [hex1] at h
      | ok p1 =>
        obtain ⟨lp, ts1⟩ := p1
        simp only [hex1] at h
        cases hexp : parseExpression fuel 0 ts1 with
        | error e2 => simp [hexp] at h
        | ok p2 =>
          obtain ⟨inner, ts2⟩ := p2
          simp only [hexp] at h
          cases hex2 : expectToken .RParen ts2 with
          | error e3 => simp [hex2] at h
          | ok p3 =>
            obtain ⟨rp, ts3⟩ := p3
            simp only [hex2, Except.ok.injEq, Prod.mk.injEq] at h
            rw [← h.2]
            exact (expectToken_countSemis _ _ _ _ (by simp) hex2).trans
              ((ihExpr _ _ _ _ hexp).trans
                (expectToken_countSemis _ _ _ _ (by simp) hex1))
    · -- parseUnaryExpression
      intro t rest e ts' htok h
      simp only [parseUnaryExpression] at h
      cases hexp : parseExpression fuel (getPrefixBindingPower t.tokenType) rest with
      | error e1 => simp [hexp] at h
      | ok p1 =>
        obtain ⟨operand, ts1⟩ := p1
        simp only [hexp, Except.ok.injEq, Prod.mk.injEq] at h
        rw [← h.2]
        exact (ihExpr _ _ _ _ hexp).trans (countSemis_cons_ne t rest htok).symm
    · -- parsePlotStyles
      intro styles ts res ts' h
      simp only [parsePlotStyles] at h
      split at h
      · rename_i t rest
        split at h
        · cases hex : expectToken .Identifier rest with
          | error e1 => simp [hex] at h
          | ok p1 =>
            obtain ⟨styleTok, ts1⟩ := p1
            simp only [hex] at h
            have htok : t.tokenType ≠ TokenType.Semicolon := by
              rw [(by assumption : t.tokenType = TokenType.Comma)]; simp
            exact (ihSty _ _ _ _ h).trans
              ((expectToken_countSemis _ _ _ _ (by simp) hex).trans
                (countSemis_cons_ne t rest htok).symm)
        · simp only [Except.ok.injEq, Prod.mk.injEq] at h
          rw [← h.2]
      · simp only [Except.ok.injEq, Prod.mk.injEq] at h
        rw [← h.2]
    · -- parseAssignmentStatement
      intro ts st ts' h
      simp only [parseAssignmentStatement] at h
      cases hex1 : expectToken .Identifier ts with
      | error e1 => simp [hex1] at h
      | ok p1 =>
        obtain ⟨varTok, ts1⟩ := p1
        simp only [hex1] at h
        cases hex2 : expectToken .ColonAssign ts1 with
        | error e2 => simp [hex2] at h
        | ok p2 =>
          obtain ⟨ca, ts2⟩ := p2
          simp only [hex2] at h
          cases hexp : parseExpression fuel 0 ts2 with
          | error e3 => simp [hexp] at h
          | ok p3 =>
            obtain ⟨e1, ts3⟩ := p3
            simp only [hexp, Except.ok.injEq, Prod.mk.injEq] at h
            rw [← h.2]
            exact (ihExpr _ _ _ _ hexp).trans
              ((expectToken_countSemis _ _ _ _ (by simp) hex2).trans
                (expectToken_countSemis _ _ _ _ (by simp) hex1))
    · -- parseNamedOutputStatement
      intro ts st ts' h
      simp only [parseNamedOutputStatement] at h
      cases hex1 : expectToken .Identifier ts with
      | error e1 => simp [hex1] at h
      | ok p1 =>
        obtain ⟨nameTok, ts1⟩ := p1
        simp only [hex1] at h
        cases hex2 : expectToken .Colon ts1 with
        | error e2 => simp [hex2] at h
        | ok p2 =>
          obtain ⟨co, ts2⟩ := p2
          simp only [hex2] at h
          cases hexp : parseExpression fuel 0 ts2 with
          | error e3 => simp [hexp] at h
          | ok p3 =>
            obtain ⟨e1, ts3⟩ := p3
            simp only [hexp] at h
            cases hsty : parsePlotStyles fuel [] ts3 with
            | error e4 => simp [hsty] at h
            | ok p4 =>
              obtain ⟨styles, ts4⟩ := p4
              simp only [hsty, Except.ok.injEq, Prod.mk.injEq] at h
              rw [← h.2]
              exact (ihSty _ _ _ _ hsty).trans
                ((ihExpr _ _ _ _ hexp).trans
                  ((expectToken_countSemis _ _ _ _ (by simp) hex2).trans
                    (expectToken_countSemis _ _ _ _ (by simp) hex1)))
    · -- parseAnonymousOutputStatement
      intro ts st ts' h
      simp only [parseAnonymousOutputStatement] at h
      cases hexp : parseExpression fuel 0 ts with
      | error e1 => simp [hexp] at h
      | ok p1 =>
        obtain ⟨e1, ts1⟩ := p1
        simp only [hexp] at h
        cases hsty : parsePlotStyles fuel [] ts1 with
        | error e2 => simp [hsty] at h
        | ok p2 =>
          obtain ⟨styles, ts2⟩ := p2
          simp only [hsty, Except.ok.injEq, Prod.mk.injEq] at h
          rw [← h.2]
          exact (ihSty _ _ _ _ hsty).trans (ihExpr _ _ _ _ hexp)
    · -- parseStatement
      intro ts st ts' h
      simp only [parseStatement] at h
      split at h
      · split at h
        · split at h
          · split at h
            · exact ihAsg _ _ _ h
            · split at h
              · exact ihNam _ _ _ h
              · exact ihAnon _ _ _ h
          · exact ihAnon _ _ _ h
        · exact ihAnon _ _ _ h
      · exact ihAnon _ _ _ h
    · -- parseFormulaLoop
      intro acc ts res h
      simp only [parseFormulaLoop] at h
      split at h
      · rw [← skipNewlines_countSemis ts, (by assumption : skipNewlines ts = [])]
        rfl
      · split at h
        · simp at h
        · rename_i st2 ts2 heq2
          have h3 := ihForm _ _ _ h
          have hts2 : countSemis ts2 = 0 := by
            cases hc : ts2 with
            | nil => rfl
            | cons u urest =>
              simp only [hc] at h3
              by_cases hnl : u.tokenType = TokenType.Newline
              · rw [if_pos hnl] at h3
                rw [countSemis_cons_ne u urest (by rw [hnl]; simp)]
                exact h3
              · rw [if_neg hnl] at h3
                exact h3
          rw [← skipNewlines_countSemis ts, ← ihStmt _ _ _ heq2]
          exact hts2

/-- C10: the lexer turns `;` into a `Semicolon` token; no parser production
consumes a `Semicolon` — a stream a successful `parseFormula` run accepts
contains none, and a `Semicolon` at an expression position hits the prefix
parser's rejection branch — so any formula text with a semicolon outside
comments and strings fails with a syntax error, as the concrete text `C;`
does. -/
theorem semicolon_always_rejected :
    (∀ (s : LexerState) (rest : List Char), s.remaining = ';' :: rest →
      (nextToken s).1.tokenType = .Semicolon ∧ (nextToken s).2.remaining = rest) ∧
    (∀ (fuel : ℕ) (t : Token) (rest : List Token), t.tokenType = .Semicolon →
      parsePrefix (fuel + 1) (t :: rest) =
        .error (.unexpectedToken .Semicolon t.line t.column)) ∧
    (∀ (fuel : ℕ) (ts : List Token) (f : Formula), parseFormula fuel ts = .ok f →
      ∀ t ∈ ts, t.tokenType ≠ .Semicolon) ∧
    parseText "C;" = .error (.unexpectedToken .Semicolon 1 2) := by
  refine ⟨?_, ?_, ?_, by rfl⟩
  · intro s rest h
    have hsemi : nextToken s = consumeCharToken s .Semicolon := by
      rw [nextToken]
      have hlen : s.remaining.length + 1 = rest.length + 1 + 1 := by rw [h]; rfl
      rw [hlen]
      simp only [nextTokenF]
      rw [skipWhitespace_not_ws _ _ (by rw [h]; simp)]
      simp only [nextTokenDispatch]
      rw [LexerState.isAtEnd_eq, LexerState.peek_eq, h]
      simp
    refine ⟨by rw [hsemi]; rfl, ?_⟩
    rw [hsemi, consumeCharToken_remaining, h, List.tail_cons]
  · intro fuel t rest ht
    simp [parsePrefix, ht]
  · intro fuel ts f h t hmem
    cases hl : parseFormulaLoop fuel [] ts with
    | error e => simp [parseFormula, hl] at h
    | ok stmts =>
      obtain ⟨-, -, -, -, -, -, -, -, -, -, -, -, -, hForm⟩ := parser_countSemis fuel
      have hzero : countSemis ts = 0 := hForm [] ts stmts hl
      have := List.countP_eq_zero.mp hzero t hmem
      simpa using this

end Tdx
